import Mathlib

/-!
Verification development for the docinator repository (Go).

The file shallowly embeds the parts of the source the frozen claims are
about:

* internal/utils ConvertHTMLToMarkdown and its helper functions
  (stripAllTags, unescapeCommonEntities), modelled character by character
  on lists of characters; the few Go regular expressions the source uses
  are modelled by dedicated matching functions, one per pattern, with
  leftmost and lazy/greedy behaviour spelled out;
* internal/models (Package, Function, Type, Variable, Constant, Example);
* pkg/parser ParsePackagePage over a rose-tree model of the parsed DOM
  and of the goquery operations the source calls (Find with descendant
  selectors, First, Text, AttrOr, NextAllFiltered, Each);
* pkg/scraper ScrapePackageWithRaw and ScrapePackages, with the page
  fetch abstracted as an input (the fetched document or a failure) and,
  for the concurrent branch, the completion order abstracted as a
  permutation of the input identifier list.

All definitions are executable; theorems about the claims follow at the
end of the file.
-/

namespace Docinator

/-! ### Go string primitives (strings / strconv), on lists of characters -/

/-- Whitespace per Go unicode.IsSpace, restricted to ASCII (the scraped
inputs are ASCII): space, tab, newline, vertical tab, form feed, carriage
return. -/
def goIsSpace (c : Char) : Bool :=
  c = ' ' || c = '\t' || c = '\n' || c = '\x0b' || c = '\x0c' || c = '\r'

/-- Whitespace class of the Go regexp engine (RE2 backslash-s):
tab, newline, form feed, carriage return, space. -/
def reSpace (c : Char) : Bool :=
  c = '\t' || c = '\n' || c = '\x0c' || c = '\r' || c = ' '

/-- strings.TrimSpace on a character list. -/
def trimSpaceL (s : List Char) : List Char :=
  ((s.dropWhile goIsSpace).reverse.dropWhile goIsSpace).reverse

/-- strings.TrimSpace. -/
def goTrim (s : String) : String := ⟨trimSpaceL s.data⟩

/-- strings.HasPrefix. -/
def startsWithL (pat s : List Char) : Bool := pat.isPrefixOf s

/-- strings.TrimPrefix: drop pat when it leads s, otherwise return s. -/
def dropPatL (pat s : List Char) : List Char :=
  if startsWithL pat s then s.drop pat.length else s

/-- strings.Contains (substring occurrence). -/
def containsSubL (pat : List Char) : List Char → Bool
  | [] => pat.isEmpty
  | c :: rest => startsWithL pat (c :: rest) || containsSubL pat rest

/-- strings.ReplaceAll, scanning left to right, non-overlapping matches,
resuming after each replacement.  The fuel argument bounds the number of
scanning steps; every step consumes at least one character of the input
(the source patterns are never empty), so the wrapper passes the input
length and the fuel never runs out. -/
def replaceAllGo (pat repl : List Char) : Nat → List Char → List Char
  | _, [] => []
  | 0, s => s
  | fuel + 1, c :: rest =>
    if !pat.isEmpty && startsWithL pat (c :: rest) then
      repl ++ replaceAllGo pat repl fuel ((c :: rest).drop pat.length)
    else
      c :: replaceAllGo pat repl fuel rest

/-- strings.ReplaceAll on character lists. -/
def replaceAllL (pat repl s : List Char) : List Char :=
  replaceAllGo pat repl s.length s

/-- strings.ReplaceAll on strings. -/
def goReplaceAll (s pat repl : String) : String :=
  ⟨replaceAllL pat.data repl.data s.data⟩

/-- strings.ToLower (ASCII). -/
def toLowerL (s : List Char) : List Char := s.map Char.toLower

/-- strconv.Atoi: optional sign, one or more decimal digits, nothing
else; values outside the signed 64-bit range are an error (Go int is 64
bits here).  Returns none exactly when Go returns a non-nil error. -/
def goAtoi (s : String) : Option Int :=
  match s.data with
  | [] => none
  | c :: rest =>
    let p : Bool × List Char :=
      if c = '-' then (true, rest) else if c = '+' then (false, rest) else (false, c :: rest)
    if p.2.isEmpty then none
    else if p.2.all (fun d => d.isDigit) then
      let v : Nat := p.2.foldl (fun a d => a * 10 + (d.toNat - 48)) 0
      let i : Int := if p.1 then -(v : Int) else (v : Int)
      if i < -(2 ^ 63) || i > 2 ^ 63 - 1 then none else some i
    else none

/-! ### internal/utils: ConvertHTMLToMarkdown

The source applies, in order: newline normalisation, entity unescaping,
five regular-expression rewrites (fenced code, headings 1..6, anchors,
three image attribute orders, inline code), a table of literal tag
substitutions, residual tag stripping, a lone-backtick fence fix, a
second entity unescape, blank-line collapsing, and a final trim.  Each
regular expression is modelled by a matcher that, given the text starting
at a candidate position, either fails or returns the replacement together
with the rest of the input after the match, mirroring RE2 leftmost
matching with Perl-style greedy/lazy priorities. -/

/-- Case-insensitive literal match at the head of the input (the source
regexps all carry the (?i) flag). -/
def startsWithCI : List Char → List Char → Bool
  | [], _ => true
  | _ :: _, [] => false
  | p :: ps, c :: cs => p.toLower = c.toLower && startsWithCI ps cs

/-- Earliest case-insensitive occurrence of lit: returns the text before
it and the text after it.  This is the lazy dot-star followed by a
literal. -/
def splitOnLitCI (lit : List Char) : List Char → Option (List Char × List Char)
  | [] => if lit.isEmpty then some ([], []) else none
  | c :: rest =>
    if startsWithCI lit (c :: rest) then some ([], (c :: rest).drop lit.length)
    else
      match splitOnLitCI lit rest with
      | some (pre, post) => some (c :: pre, post)
      | none => none

/-- The regexp fragment [^>]*> : the attribute text before the closing
angle bracket, and the rest after it; fails when no closing bracket
follows. -/
def splitTagEnd (s : List Char) : Option (List Char × List Char) :=
  let attrs := s.takeWhile (fun c => c ≠ '>')
  match s.drop attrs.length with
  | '>' :: r => some (attrs, r)
  | _ => none

/-- unescapeCommonEntities.  The source iterates a Go map, whose order is
unspecified; the table is applied here in the literal order of the source.
The entities are pairwise non-interfering on the inputs the claims
evaluate, so the order does not affect the proved statements. -/
def entityTable : List (String × String) :=
  [("&quot;", "\""), ("&#34;", "\""), ("&apos;", "\x27"), ("&#39;", "\x27"),
   ("&amp;", "&"), ("&lt;", "<"), ("&gt;", ">"), ("&nbsp;", " ")]

/-- unescapeCommonEntities on character lists. -/
def unescapeCommonEntitiesL (s : List Char) : List Char :=
  entityTable.foldl (fun acc kv => replaceAllL kv.1.data kv.2.data acc) s

/-- The lazy search inside the fenced-code pattern: earliest position
where a closing code tag is followed by optional whitespace and a closing
pre tag; returns the code text and the rest after the closing pre tag. -/
def findCodeClose : List Char → Option (List Char × List Char)
  | [] => none
  | c :: rest =>
    if startsWithCI "</code>".data (c :: rest) then
      let after := ((c :: rest).drop 7).dropWhile reSpace
      if startsWithCI "</pre>".data after then
        some ([], after.drop 6)
      else
        match findCodeClose rest with
        | some (code, r) => some (c :: code, r)
        | none => none
    else
      match findCodeClose rest with
      | some (code, r) => some (c :: code, r)
      | none => none

/-- Matcher for preCodeRe with the replacement function of the source:
fenced code block, language go when the class attribute mentions
language-go, inner entities unescaped. -/
def tryPreCode (s : List Char) : Option (List Char × List Char) :=
  if startsWithCI "<pre>".data s then
    let t := (s.drop 5).dropWhile reSpace
    if startsWithCI "<code".data t then
      match splitTagEnd (t.drop 5) with
      | none => none
      | some (attrs, afterOpen) =>
        match findCodeClose afterOpen with
        | none => none
        | some (code, rest) =>
          let lang := if containsSubL "language-go".data (toLowerL attrs) then "go".data else []
          let codeU := unescapeCommonEntitiesL code
          some ("```".data ++ lang ++ "\n".data ++ codeU ++ "\n```\n\n".data, rest)
    else none
  else none

/-- Matcher for the heading pattern of a given level 1..6: the opening
tag with arbitrary attribute text, lazy content, closing tag; replaced by
hash marks, a space, the content and a blank line. -/
def tryHeading (lvl : Nat) (s : List Char) : Option (List Char × List Char) :=
  let digit : Char := Char.ofNat (48 + lvl)
  if startsWithCI ['<', 'h', digit] s then
    match splitTagEnd (s.drop 3) with
    | none => none
    | some (_, afterOpen) =>
      match splitOnLitCI ['<', '/', 'h', digit, '>'] afterOpen with
      | none => none
      | some (content, rest) =>
        some (List.replicate lvl '#' ++ " ".data ++ content ++ "\n\n".data, rest)
  else none

/-- Inner step of the anchor matcher: with the href attribute anchored at
offset i of the body (the greedy [^>]* having consumed i characters plus
one whitespace character), parse the url, the end of the opening tag, the
lazy link text and the closing tag. -/
def anchorTryAt (body : List Char) (i : Nat) : Option (List Char × List Char) :=
  let afterHref := body.drop (i + 1 + 6)
  let url := afterHref.takeWhile (fun c => c ≠ '"')
  if url.isEmpty then none
  else
    match afterHref.drop url.length with
    | '"' :: afterQuote =>
      match splitTagEnd afterQuote with
      | none => none
      | some (_, afterOpen) =>
        match splitOnLitCI "</a>".data afterOpen with
        | none => none
        | some (txt, rest) =>
          some ("[".data ++ txt ++ "](".data ++ url ++ ")".data, rest)
    | _ => none

/-- Backtracking loop of the anchor matcher: candidate positions for the
whitespace before href are tried longest-first (greedy [^>]*), each
candidate running the rest of the pattern. -/
def anchorLoop (body zone : List Char) : Nat → Option (List Char × List Char)
  | 0 => none
  | i + 1 =>
    match
      (if (zone.drop i).head?.any reSpace &&
          startsWithCI "href=\"".data (body.drop (i + 1)) then
        anchorTryAt body i
      else none) with
    | some r => some r
    | none => anchorLoop body zone i

/-- Matcher for anchorRe: anchor tag with an href attribute, replaced by
a markdown link. -/
def tryAnchor (s : List Char) : Option (List Char × List Char) :=
  if startsWithCI "<a".data s then
    let body := s.drop 2
    let zone := body.takeWhile (fun c => c ≠ '>')
    anchorLoop body zone zone.length
  else none

/-- Tail of the image patterns after the last quoted attribute: the
regexp fragment [^>]* /? > consumes up to and including the next closing
angle bracket. -/
def imgTagTail (s : List Char) : Option (List Char) :=
  let zone := s.takeWhile (fun c => c ≠ '>')
  match s.drop zone.length with
  | '>' :: rest => some rest
  | _ => none

/-- Inner step of the alt-then-src image matcher at alt offset i. -/
def imgAltSrcAt (body : List Char) (i : Nat) : Option (List Char × List Char) :=
  let afterAlt := body.drop (i + 1 + 5)
  let alt := afterAlt.takeWhile (fun c => c ≠ '"')
  match afterAlt.drop alt.length with
  | '"' :: afterQ =>
    let zone2 := afterQ.takeWhile (fun c => c ≠ '>')
    (zone2.length).rec none (fun j prev =>
      match
        (if (zone2.drop j).head?.any reSpace &&
            startsWithCI "src=\"".data (afterQ.drop (j + 1)) then
          let afterSrc := afterQ.drop (j + 1 + 5)
          let src := afterSrc.takeWhile (fun c => c ≠ '"')
          if src.isEmpty then none
          else
            match afterSrc.drop src.length with
            | '"' :: afterQ2 =>
              match imgTagTail afterQ2 with
              | some rest => some ("![".data ++ alt ++ "](".data ++ src ++ ")".data, rest)
              | none => none
            | _ => none
        else none) with
      | some r => some r
      | none => prev)
  | _ => none

/-- Backtracking loop for the alt-then-src image pattern. -/
def imgAltSrcLoop (body zone : List Char) : Nat → Option (List Char × List Char)
  | 0 => none
  | i + 1 =>
    match
      (if (zone.drop i).head?.any reSpace &&
          startsWithCI "alt=\"".data (body.drop (i + 1)) then
        imgAltSrcAt body i
      else none) with
    | some r => some r
    | none => imgAltSrcLoop body zone i

/-- Matcher for imgAltSrcRe: image tag with alt before src. -/
def tryImgAltSrc (s : List Char) : Option (List Char × List Char) :=
  if startsWithCI "<img".data s then
    let body := s.drop 4
    let zone := body.takeWhile (fun c => c ≠ '>')
    imgAltSrcLoop body zone zone.length
  else none

/-- Inner step of the src-then-alt image matcher at src offset i. -/
def imgSrcAltAt (body : List Char) (i : Nat) : Option (List Char × List Char) :=
  let afterSrc := body.drop (i + 1 + 5)
  let src := afterSrc.takeWhile (fun c => c ≠ '"')
  if src.isEmpty then none
  else
    match afterSrc.drop src.length with
    | '"' :: afterQ =>
      let zone2 := afterQ.takeWhile (fun c => c ≠ '>')
      (zone2.length).rec none (fun j prev =>
        match
          (if (zone2.drop j).head?.any reSpace &&
              startsWithCI "alt=\"".data (afterQ.drop (j + 1)) then
            let afterAlt := afterQ.drop (j + 1 + 5)
            let alt := afterAlt.takeWhile (fun c => c ≠ '"')
            match afterAlt.drop alt.length with
            | '"' :: afterQ2 =>
              match imgTagTail afterQ2 with
              | some rest => some ("![".data ++ alt ++ "](".data ++ src ++ ")".data, rest)
              | none => none
            | _ => none
          else none) with
        | some r => some r
        | none => prev)
    | _ => none

/-- Backtracking loop for the src-then-alt image pattern. -/
def imgSrcAltLoop (body zone : List Char) : Nat → Option (List Char × List Char)
  | 0 => none
  | i + 1 =>
    match
      (if (zone.drop i).head?.any reSpace &&
          startsWithCI "src=\"".data (body.drop (i + 1)) then
        imgSrcAltAt body i
      else none) with
    | some r => some r
    | none => imgSrcAltLoop body zone i

/-- Matcher for imgSrcAltRe: image tag with src before alt. -/
def tryImgSrcAlt (s : List Char) : Option (List Char × List Char) :=
  if startsWithCI "<img".data s then
    let body := s.drop 4
    let zone := body.takeWhile (fun c => c ≠ '>')
    imgSrcAltLoop body zone zone.length
  else none

/-- Inner step of the src-only image matcher at src offset i. -/
def imgSrcOnlyAt (body : List Char) (i : Nat) : Option (List Char × List Char) :=
  let afterSrc := body.drop (i + 1 + 5)
  let src := afterSrc.takeWhile (fun c => c ≠ '"')
  if src.isEmpty then none
  else
    match afterSrc.drop src.length with
    | '"' :: afterQ =>
      match imgTagTail afterQ with
      | some rest => some ("![](".data ++ src ++ ")".data, rest)
      | none => none
    | _ => none

/-- Backtracking loop for the src-only image pattern. -/
def imgSrcOnlyLoop (body zone : List Char) : Nat → Option (List Char × List Char)
  | 0 => none
  | i + 1 =>
    match
      (if (zone.drop i).head?.any reSpace &&
          startsWithCI "src=\"".data (body.drop (i + 1)) then
        imgSrcOnlyAt body i
      else none) with
    | some r => some r
    | none => imgSrcOnlyLoop body zone i

/-- Matcher for imgSrcOnlyRe: image tag with only a src attribute,
producing an empty alt text. -/
def tryImgSrcOnly (s : List Char) : Option (List Char × List Char) :=
  if startsWithCI "<img".data s then
    let body := s.drop 4
    let zone := body.takeWhile (fun c => c ≠ '>')
    imgSrcOnlyLoop body zone zone.length
  else none

/-- Matcher for inlineCodeRe: a bare code tag with lazy content. -/
def tryInlineCode (s : List Char) : Option (List Char × List Char) :=
  if startsWithCI "<code>".data s then
    match splitOnLitCI "</code>".data (s.drop 6) with
    | some (content, rest) => some ("`".data ++ content ++ "`".data, rest)
    | none => none
  else none

/-- ReplaceAll driver for the regexp rewrites: at each position the
matcher is tried; on success the replacement is emitted and scanning
resumes after the match, otherwise one character is copied.  Every match
consumes at least one input character (all patterns open with an angle
bracket), so fuel equal to the input length never runs out. -/
def regexReplace (tryAt : List Char → Option (List Char × List Char)) :
    Nat → List Char → List Char
  | _, [] => []
  | 0, s => s
  | fuel + 1, c :: rest =>
    match tryAt (c :: rest) with
    | some (repl, after) => repl ++ regexReplace tryAt fuel after
    | none => c :: regexReplace tryAt fuel rest

/-- The literal tag substitution table of step 6.  The source stores it
in a Go map and iterates it in unspecified order; the literal order of
the source text is fixed here (the substitutions only interfere on inputs
mixing the bold and line-break tags, which no proved statement uses). -/
def blockTagTable : List (String × String) :=
  [("<p>", "\n"), ("</p>", "\n\n"), ("<br>", "\n"), ("<br/>", "\n"),
   ("<strong>", "**"), ("</strong>", "**"), ("<b>", "**"), ("</b>", "**"),
   ("<em>", "*"), ("</em>", "*"), ("<i>", "*"), ("</i>", "*"),
   ("<ul>", "\n"), ("</ul>", "\n"), ("<ol>", "\n"), ("</ol>", "\n"),
   ("<li>", "- "), ("</li>", "\n"), ("<blockquote>", "> "), ("</blockquote>", "\n"),
   ("<hr>", "\n---\n"), ("<hr/>", "\n---\n")]

/-- Earliest index of a character, as strings.Index for a one-character
pattern. -/
def idxOfChar (c : Char) : List Char → Option Nat
  | [] => none
  | a :: rest => if a = c then some 0 else (idxOfChar c rest).map (· + 1)

/-- stripAllTags: repeatedly locate the next angle-bracket span and
remove it; each iteration removes at least one character, so fuel equal
to the input length never runs out. -/
def stripAllTagsGo : Nat → List Char → List Char
  | 0, s => s
  | fuel + 1, s =>
    match idxOfChar '<' s with
    | none => s
    | some start =>
      match idxOfChar '>' (s.drop start) with
      | none => s
      | some stop => stripAllTagsGo fuel (s.take start ++ s.drop (start + stop + 1))

/-- stripAllTags on character lists. -/
def stripAllTagsL (s : List Char) : List Char := stripAllTagsGo s.length s

/-- The blank-line collapsing loop: replace three consecutive newlines by
two until none remain; each iteration shortens the text, so fuel equal to
the input length never runs out. -/
def collapseBlankGo : Nat → List Char → List Char
  | 0, s => s
  | fuel + 1, s =>
    if containsSubL "\n\n\n".data s then
      collapseBlankGo fuel (replaceAllL "\n\n\n".data "\n\n".data s)
    else s

/-- ConvertHTMLToMarkdown on character lists, stage for stage as in the
source. -/
def convertHTMLToMarkdownL (html0 : List Char) : List Char :=
  if trimSpaceL html0 = [] then html0
  else
    let h := replaceAllL "\r\n".data "\n".data html0
    let h := unescapeCommonEntitiesL h
    let h := regexReplace tryPreCode h.length h
    let h := [1, 2, 3, 4, 5, 6].foldl (fun acc lvl => regexReplace (tryHeading lvl) acc.length acc) h
    let h := regexReplace tryAnchor h.length h
    let h := regexReplace tryImgAltSrc h.length h
    let h := regexReplace tryImgSrcAlt h.length h
    let h := regexReplace tryImgSrcOnly h.length h
    let h := regexReplace tryInlineCode h.length h
    let h := blockTagTable.foldl (fun acc kv => replaceAllL kv.1.data kv.2.data acc) h
    let h := stripAllTagsL h
    let h := replaceAllL "\n`\n".data "\n```\n".data h
    let h := replaceAllL "\n`\n\n".data "\n```\n\n".data h
    let h := unescapeCommonEntitiesL h
    let h := collapseBlankGo h.length h
    trimSpaceL h

/-- internal/utils ConvertHTMLToMarkdown. -/
def ConvertHTMLToMarkdown (html : String) : String :=
  ⟨convertHTMLToMarkdownL html.data⟩

/-! ### internal/models -/

/-- models.Example. -/
structure Example where
  Name : String := ""
  Code : String := ""
  Output : String := ""
deriving DecidableEq, Repr

/-- models.Function. -/
structure Function where
  Name : String := ""
  Description : String := ""
  Signature : String := ""
  Receiver : String := ""
  Deprecated : String := ""
  AddedIn : String := ""
  Examples : List Example := []
deriving DecidableEq, Repr

/-- models.Type (named TypeDecl here; Type is a Lean keyword). -/
structure TypeDecl where
  Name : String := ""
  Description : String := ""
  Definition : String := ""
  Kind : String := ""
  Deprecated : String := ""
  AddedIn : String := ""
  Methods : List Function := []
  Examples : List Example := []
deriving DecidableEq, Repr

/-- models.Variable (the source field Type is named Typ here; Type is a
Lean keyword). -/
structure Variable where
  Name : String := ""
  Typ : String := ""
  Description : String := ""
deriving DecidableEq, Repr

/-- models.Constant (the source field Type is named Typ here). -/
structure Constant where
  Name : String := ""
  Typ : String := ""
  Value : String := ""
  Description : String := ""
deriving DecidableEq, Repr

/-- models.Package.  Go time.Time is modelled as a natural number; Go int
is modelled as Int. -/
structure Package where
  Name : String := ""
  Description : String := ""
  Module : String := ""
  Version : String := ""
  IsLatest : Bool := false
  Published : String := ""
  Synopsis : String := ""
  License : String := ""
  LicenseURL : String := ""
  Repository : String := ""
  ImportPath : String := ""
  ScrapedAt : Nat := 0
  Readme : String := ""
  ProcessedReadme : String := ""
  Imports : Int := 0
  ImportedBy : Int := 0
  Functions : List Function := []
  Types : List TypeDecl := []
  Variables : List Variable := []
  Constants : List Constant := []
  Examples : List Example := []
deriving DecidableEq, Repr

/-! ### The parsed DOM and the goquery operations the parser calls

A parsed document is a rose tree of element and text nodes.  The child
sequence is its own inductive type so that every traversal is a plain
structural recursion (nested patterns on the head node reach its child
list, which is a subterm). -/

mutual
/-- A DOM node: an element with tag, attributes and children, or text. -/
inductive Node where
  | elem (tag : String) (attrs : List (String × String)) (children : NodeList)
  | text (s : String)

/-- A sequence of sibling DOM nodes. -/
inductive NodeList where
  | nil
  | cons (hd : Node) (tl : NodeList)
end

/-- Tag of an element node. -/
def Node.tagOf : Node → Option String
  | .elem t _ _ => some t
  | .text _ => none

/-- Attribute list of a node (empty for text). -/
def Node.attrsOf : Node → List (String × String)
  | .elem _ a _ => a
  | .text _ => []

/-- Attribute lookup, as goquery Attr: the value when present. -/
def attrVal (n : Node) (k : String) : Option String :=
  n.attrsOf.lookup k

/-- strings.Split on a single space, as the class attribute is split for
class-selector matching (consecutive separators yield empty segments,
which never equal a class name). -/
def splitOnSpace : List Char → List (List Char)
  | [] => [[]]
  | ' ' :: rest => [] :: splitOnSpace rest
  | c :: rest =>
    match splitOnSpace rest with
    | [] => [[c]]
    | w :: ws => (c :: w) :: ws

/-- The class list of a node: the class attribute split on spaces (as
cascadia matches class selectors). -/
def classListOf (n : Node) : List String :=
  (splitOnSpace ((attrVal n "class").getD "").data).map (fun w => ⟨w⟩)

/-- Concatenated text content of a sibling sequence, in document order;
this is goquery Text restricted to one subtree. -/
def textContentNL : NodeList → List Char
  | .nil => []
  | .cons (.text s) tl => s.data ++ textContentNL tl
  | .cons (.elem _ _ cs) tl => textContentNL cs ++ textContentNL tl

/-- Text content of one node. -/
def textContentN (n : Node) : List Char :=
  textContentNL (.cons n .nil)

/-- All strict descendants of a sibling sequence, in document order. -/
def descNL : NodeList → List Node
  | .nil => []
  | .cons (.text s) tl => Node.text s :: descNL tl
  | .cons (.elem t a cs) tl => Node.elem t a cs :: (descNL cs ++ descNL tl)

/-- All strict descendants of one node. -/
def descOf : Node → List Node
  | .text _ => []
  | .elem _ _ cs => descNL cs

/-! Selectors.  The source uses a small CSS subset: optional tag name,
classes, attribute presence, attribute equality, attribute value start
(the caret-equals form), descendant chains, and comma unions. -/

/-- One simple selector. -/
structure SimpleSel where
  tag : Option String := none
  classes : List String := []
  attrHas : List String := []
  attrEq : List (String × String) := []
  attrStart : List (String × String) := []

/-- A descendant chain: the target selector plus the ancestor selectors,
nearest first going up. -/
structure CompSel where
  target : SimpleSel
  anc : List SimpleSel := []

/-- A comma union of chains. -/
abbrev Sel := List CompSel

/-- Whether a node matches a simple selector. -/
def matchesSimple (q : SimpleSel) (n : Node) : Bool :=
  match n with
  | .text _ => false
  | .elem t _ _ =>
    (match q.tag with | none => true | some tg => t = tg)
    && q.classes.all (fun c => (classListOf n).contains c)
    && q.attrHas.all (fun k => (attrVal n k).isSome)
    && q.attrEq.all (fun kv => attrVal n kv.1 = some kv.2)
    && q.attrStart.all (fun kv =>
        match attrVal n kv.1 with
        | some v => startsWithL kv.2.data v.data
        | none => false)

/-- Whether the ancestor chain (nearest-first list of ancestors) realises
the ancestor selectors, outermost conditions allowed anywhere above. -/
def ancChain : List SimpleSel → List Node → Bool
  | [], _ => true
  | _ :: _, [] => false
  | q :: qs, a :: as => if matchesSimple q a then ancChain qs as else ancChain (q :: qs) as

/-- Whether a node with the given ancestors matches a chain. -/
def matchesComp (c : CompSel) (anc : List Node) (n : Node) : Bool :=
  matchesSimple c.target n && ancChain c.anc anc

/-- Whether a node with the given ancestors matches a union of chains. -/
def selMatches (sel : Sel) (anc : List Node) (n : Node) : Bool :=
  sel.any (fun c => matchesComp c anc n)

/-- A matched node together with its ancestor chain (nearest first) and
its following siblings; the latter two carry exactly the context goquery
keeps for NextAll and for matching descendant selectors. -/
structure Loc where
  node : Node
  anc : List Node
  following : NodeList

/-- All descendants of a sibling sequence matching a selector, in
document order, each with its context.  anc is the ancestor chain of the
sequence members. -/
def locFindNL (sel : Sel) (anc : List Node) : NodeList → List Loc
  | .nil => []
  | .cons c tl =>
    (if selMatches sel anc c then [⟨c, anc, tl⟩] else [])
    ++ (match c with
        | .text _ => []
        | .elem t a cs => locFindNL sel (Node.elem t a cs :: anc) cs)
    ++ locFindNL sel anc tl

/-- goquery Find from the document root: descendants of the root matching
the selector. -/
def find (d : Node) (sel : Sel) : List Loc :=
  match d with
  | .text _ => []
  | .elem t a cs => locFindNL sel [Node.elem t a cs] cs

/-- goquery Find relative to a matched node: descendants of that node
matching the selector (ancestors above the node still count for
descendant chains, as in cascadia). -/
def findIn (l : Loc) (sel : Sel) : List Loc :=
  match l.node with
  | .text _ => []
  | .elem t a cs => locFindNL sel (Node.elem t a cs :: l.anc) cs

/-- goquery Text over a selection: concatenated text of every matched
node. -/
def textOfSel (ls : List Loc) : String :=
  ⟨(ls.map (fun l => textContentN l.node)).flatten⟩

/-- Text of the first matched node (First then Text); empty when the
selection is empty. -/
def firstText (ls : List Loc) : String :=
  match ls.head? with
  | none => ""
  | some l => ⟨textContentN l.node⟩

/-- goquery AttrOr on a selection: the attribute of the first matched
node, or the default. -/
def selAttrOr (ls : List Loc) (k dflt : String) : String :=
  match ls.head? with
  | none => dflt
  | some l => (attrVal l.node k).getD dflt

/-- goquery NextAllFiltered: the following siblings of a matched node
that match a selector, in document order. -/
def filterSiblings (sel : Sel) (anc : List Node) : NodeList → List Node
  | .nil => []
  | .cons c tl => (if selMatches sel anc c then [c] else []) ++ filterSiblings sel anc tl

/-- Text of the first following sibling matching a selector
(NextAllFiltered then First then Text). -/
def nextAllFilteredFirstText (l : Loc) (sel : Sel) : String :=
  match (filterSiblings sel l.anc l.following).head? with
  | none => ""
  | some sib => ⟨textContentN sib⟩

/-! Serialisation, for goquery Html (the raw README capture and the raw
page capture).  Text is escaped minimally; the source delegates to the
Go html renderer, whose additional rules (void elements, raw-text
elements) no claim exercises. -/

/-- Escape text content for serialisation. -/
def escapeTextL (s : List Char) : List Char :=
  replaceAllL ">".data "&gt;".data
    (replaceAllL "<".data "&lt;".data (replaceAllL "&".data "&amp;".data s))

/-- Render an attribute list. -/
def renderAttrs : List (String × String) → List Char
  | [] => []
  | (k, v) :: rest =>
    " ".data ++ k.data ++ "=\"".data ++ escapeTextL v.data ++ "\"".data ++ renderAttrs rest

/-- Render a sibling sequence as HTML. -/
def renderNL : NodeList → List Char
  | .nil => []
  | .cons (.text s) tl => escapeTextL s.data ++ renderNL tl
  | .cons (.elem t a cs) tl =>
    "<".data ++ t.data ++ renderAttrs a ++ ">".data ++ renderNL cs
      ++ "</".data ++ t.data ++ ">".data ++ renderNL tl

/-- goquery Html: the inner HTML of a node. -/
def innerHTML : Node → String
  | .text _ => ""
  | .elem _ _ cs => ⟨renderNL cs⟩

/-! ### pkg/parser: ParsePackagePage

Each selector string of the source has a named encoding below, in source
order.  The Each closures of the source are named per-block functions. -/

/-- Selector h1.UnitHeader-titleHeading. -/
def selTitleHeading : Sel := [⟨{ tag := some "h1", classes := ["UnitHeader-titleHeading"] }, []⟩]

/-- Selector .UnitHeader-breadcrumbCurrent. -/
def selBreadcrumbCurrent : Sel := [⟨{ classes := ["UnitHeader-breadcrumbCurrent"] }, []⟩]

/-- Selector a[aria-label^=Version-colon-space]. -/
def selVersionA : Sel := [⟨{ tag := some "a", attrStart := [("aria-label", "Version: ")] }, []⟩]

/-- Selector union .DetailsHeader-badge--latest, .UnitHeader-badge--latest,
.DetailsHeader-span--latest. -/
def selLatestBadge : Sel :=
  [⟨{ classes := ["DetailsHeader-badge--latest"] }, []⟩,
   ⟨{ classes := ["UnitHeader-badge--latest"] }, []⟩,
   ⟨{ classes := ["DetailsHeader-span--latest"] }, []⟩]

/-- Selector [data-test-id=UnitHeader-commitTime]. -/
def selCommitTime : Sel := [⟨{ attrEq := [("data-test-id", "UnitHeader-commitTime")] }, []⟩]

/-- Selector union a[data-test-id=UnitHeader-license],
[data-test-id=UnitHeader-licenses] a, .UnitHeader-license a. -/
def selLicense : Sel :=
  [⟨{ tag := some "a", attrEq := [("data-test-id", "UnitHeader-license")] }, []⟩,
   ⟨{ tag := some "a" }, [{ attrEq := [("data-test-id", "UnitHeader-licenses")] }]⟩,
   ⟨{ tag := some "a" }, [{ classes := ["UnitHeader-license"] }]⟩]

/-- Selector [data-test-id=UnitHeader-imports] a. -/
def selImportsA : Sel :=
  [⟨{ tag := some "a" }, [{ attrEq := [("data-test-id", "UnitHeader-imports")] }]⟩]

/-- Selector [data-test-id=UnitHeader-importedby] a. -/
def selImportedByA : Sel :=
  [⟨{ tag := some "a" }, [{ attrEq := [("data-test-id", "UnitHeader-importedby")] }]⟩]

/-- Selector .UnitMeta-repo a. -/
def selRepoA : Sel := [⟨{ tag := some "a" }, [{ classes := ["UnitMeta-repo"] }]⟩]

/-- Selector .Documentation-overview p. -/
def selOverviewP : Sel := [⟨{ tag := some "p" }, [{ classes := ["Documentation-overview"] }]⟩]

/-- Selector .UnitReadme-content .Overview-readmeContent. -/
def selReadmeContent : Sel :=
  [⟨{ classes := ["Overview-readmeContent"] }, [{ classes := ["UnitReadme-content"] }]⟩]

/-- Selector .Documentation-constants .Documentation-declaration. -/
def selConstantBlocks : Sel :=
  [⟨{ classes := ["Documentation-declaration"] }, [{ classes := ["Documentation-constants"] }]⟩]

/-- Selector .Documentation-variables .Documentation-declaration. -/
def selVariableBlocks : Sel :=
  [⟨{ classes := ["Documentation-declaration"] }, [{ classes := ["Documentation-variables"] }]⟩]

/-- Selector .Documentation-functions .Documentation-function. -/
def selFunctionBlocks : Sel :=
  [⟨{ classes := ["Documentation-function"] }, [{ classes := ["Documentation-functions"] }]⟩]

/-- Selector .Documentation-types .Documentation-type. -/
def selTypeBlocks : Sel :=
  [⟨{ classes := ["Documentation-type"] }, [{ classes := ["Documentation-types"] }]⟩]

/-- Selector .Documentation-typeMethod. -/
def selTypeMethod : Sel := [⟨{ classes := ["Documentation-typeMethod"] }, []⟩]

/-- Selector .Documentation-declaration pre. -/
def selDeclPre : Sel := [⟨{ tag := some "pre" }, [{ classes := ["Documentation-declaration"] }]⟩]

/-- Selector .Documentation-sinceVersionVersion. -/
def selSinceVersionVersion : Sel := [⟨{ classes := ["Documentation-sinceVersionVersion"] }, []⟩]

/-- Selector .Documentation-sinceVersion. -/
def selSinceVersion : Sel := [⟨{ classes := ["Documentation-sinceVersion"] }, []⟩]

/-- Selector .Documentation-deprecatedTag. -/
def selDeprecatedTag : Sel := [⟨{ classes := ["Documentation-deprecatedTag"] }, []⟩]

/-- Selector pre. -/
def selPre : Sel := [⟨{ tag := some "pre" }, []⟩]

/-- Selector p. -/
def selP : Sel := [⟨{ tag := some "p" }, []⟩]

/-- Selector h4. -/
def selH4 : Sel := [⟨{ tag := some "h4" }, []⟩]

/-- Selector span[id][data-kind=constant]. -/
def selSpanConstant : Sel :=
  [⟨{ tag := some "span", attrHas := ["id"], attrEq := [("data-kind", "constant")] }, []⟩]

/-- Selector span[id][data-kind=variable]. -/
def selSpanVariable : Sel :=
  [⟨{ tag := some "span", attrHas := ["id"], attrEq := [("data-kind", "variable")] }, []⟩]

/-- The numeric parse shared by the imports and imported-by fields: trim
the text after the label, strip comma separators, convert with
strconv.Atoi; a parse failure leaves the field at zero. -/
def parseLabeledCount (label value : String) : Int :=
  match goAtoi (goReplaceAll (goTrim ⟨dropPatL label.data value.data⟩) "," "") with
  | some n => n
  | none => 0

/-- The imports extraction: the value must carry the Imports label. -/
def importsFromValue (value : String) : Int :=
  if startsWithL "Imports: ".data value.data then parseLabeledCount "Imports: " value
  else 0

/-- The imported-by extraction: the source tries the two label spellings
in order and stops at the first that leads the value. -/
def importedByFromValue (value : String) : Int :=
  if startsWithL "Imported By: ".data value.data then parseLabeledCount "Imported By: " value
  else if startsWithL "Imported by: ".data value.data then parseLabeledCount "Imported by: " value
  else 0

/-- The aria-label-or-text value both numeric fields read from their
anchor selection: the aria-label of the first match, falling back to the
trimmed text of the selection when the aria-label is absent or empty. -/
def labeledValueOf (els : List Loc) : String :=
  let aria := selAttrOr els "aria-label" ""
  if aria = "" then goTrim (textOfSel els) else aria

/-- The per-block closure of the constants loop: skip the block when the
first pre has no text; otherwise take the id of the first constant span
inside the pre, falling back to the positional name, and the text of the
first following sibling paragraph as description.  i is the zero-based
Each index. -/
def constFromBlock (i : Nat) (l : Loc) : Option Constant :=
  match (findIn l selPre).head? with
  | none => none
  | some pl =>
    let code := goTrim ⟨textContentN pl.node⟩
    if code = "" then none
    else
      let name := goTrim (selAttrOr (findIn pl selSpanConstant) "id"
        ("const-block-" ++ toString (i + 1)))
      let desc := goTrim (nextAllFilteredFirstText l selP)
      some { Name := name, Value := code, Description := desc }

/-- The per-block closure of the variables loop. -/
def varFromBlock (i : Nat) (l : Loc) : Option Variable :=
  match (findIn l selPre).head? with
  | none => none
  | some pl =>
    let code := goTrim ⟨textContentN pl.node⟩
    if code = "" then none
    else
      let name := goTrim (selAttrOr (findIn pl selSpanVariable) "id"
        ("var-block-" ++ toString (i + 1)))
      let desc := goTrim (nextAllFilteredFirstText l selP)
      some { Name := name, Typ := code, Description := desc }

/-- The constants loop: goquery Each with a running index; skipped blocks
still advance the index. -/
def constantsLoop : Nat → List Loc → List Constant
  | _, [] => []
  | i, l :: ls =>
    match constFromBlock i l with
    | some c => c :: constantsLoop (i + 1) ls
    | none => constantsLoop (i + 1) ls

/-- The variables loop. -/
def variablesLoop : Nat → List Loc → List Variable
  | _, [] => []
  | i, l :: ls =>
    match varFromBlock i l with
    | some v => v :: variablesLoop (i + 1) ls
    | none => variablesLoop (i + 1) ls

/-- The per-block closure of the functions loop: the header id (possibly
empty), the signature from the declaration pre (required non-empty), the
since-version with its fallback, the first paragraph as description and
the deprecation marker. -/
def functionFromBlock (l : Loc) : Option Function :=
  let id := selAttrOr (findIn l selH4) "id" ""
  let sig := goTrim (firstText (findIn l selDeclPre))
  if sig ≠ "" then
    let addedIn0 := goTrim (firstText (findIn l selSinceVersionVersion))
    let addedIn := if addedIn0 = "" then goTrim (firstText (findIn l selSinceVersion)) else addedIn0
    let desc := goTrim (firstText (findIn l selP))
    let deprecated := if (findIn l selDeprecatedTag).length > 0 then "deprecated" else ""
    some { Name := id, Signature := sig, Description := desc,
           Deprecated := deprecated, AddedIn := addedIn }
  else none

/-- The per-method closure of the types loop: header id with a textual
fallback, signature, description, since-version, deprecation; kept when
the signature or the name is non-empty. -/
def methodFromBlock (ml : Loc) : Option Function :=
  let mh := findIn ml selH4
  let mName0 := selAttrOr mh "id" ""
  let mName := if mName0 = "" then goTrim (firstText mh) else mName0
  let mSig := goTrim (firstText (findIn ml selDeclPre))
  let mDesc := goTrim (firstText (findIn ml selP))
  let mAddedIn0 := goTrim (firstText (findIn ml selSinceVersionVersion))
  let mAddedIn := if mAddedIn0 = "" then goTrim (firstText (findIn ml selSinceVersion)) else mAddedIn0
  let mDeprecated := if (findIn ml selDeprecatedTag).length > 0 then "deprecated" else ""
  if mSig ≠ "" || mName ≠ "" then
    some { Name := mName, Signature := mSig, Description := mDesc,
           Deprecated := mDeprecated, AddedIn := mAddedIn }
  else none

/-- The per-block closure of the types loop: requires a non-empty header
id and a non-empty definition, otherwise the block is dropped. -/
def typeFromBlock (l : Loc) : Option TypeDecl :=
  let id := selAttrOr (findIn l selH4) "id" ""
  let defn := goTrim (firstText (findIn l selDeclPre))
  if id ≠ "" && defn ≠ "" then
    let addedIn0 := goTrim (firstText (findIn l selSinceVersionVersion))
    let addedIn := if addedIn0 = "" then goTrim (firstText (findIn l selSinceVersion)) else addedIn0
    let desc := goTrim (firstText (findIn l selP))
    let deprecated := if (findIn l selDeprecatedTag).length > 0 then "deprecated" else ""
    some { Name := id, Definition := defn, Kind := "type", Description := desc,
           Deprecated := deprecated, AddedIn := addedIn,
           Methods := (findIn l selTypeMethod).filterMap methodFromBlock }
  else none

/-- The license ForEach body folded over the matches: a non-empty text
sets the license and, when an href is present, the URL, made absolute
when it is site-relative. -/
def licenseFold (acc : String × String) (l : Loc) : String × String :=
  let licenseText := goTrim ⟨textContentN l.node⟩
  let licenseHref := (attrVal l.node "href").getD ""
  if licenseText ≠ "" then
    (licenseText,
     if licenseHref ≠ "" then
       (if startsWithL "/".data licenseHref.data then "https://pkg.go.dev" ++ licenseHref
        else licenseHref)
     else acc.2)
  else acc

/-- ParsePackagePage: the field extractions of the source in source
order, assembled into one record (the source mutates an initially empty
record; the extractions are pairwise independent).  The source returns a
nil error unconditionally, so the model returns the record directly. -/
def parsePackagePage (d : Node) : Package :=
  let nameSel := find d selTitleHeading
  let breadcrumbSel := find d selBreadcrumbCurrent
  let versionSel := find d selVersionA
  let latestSel := find d selLatestBadge
  let publishedSel := find d selCommitTime
  let licPair := (find d selLicense).foldl licenseFold ("", "")
  let importsSel := find d selImportsA
  let importedBySel := find d selImportedByA
  let repoSel := find d selRepoA
  let overviewSel := find d selOverviewP
  let readmeSel := find d selReadmeContent
  let readme := match readmeSel.head? with
    | none => ""
    | some l => innerHTML l.node
  { Name := if nameSel.length > 0 then goTrim (textOfSel nameSel) else ""
  , ImportPath :=
      if breadcrumbSel.length > 0 && goTrim (textOfSel breadcrumbSel) ≠ "" then
        goTrim (textOfSel breadcrumbSel)
      else ""
  , Version :=
      if versionSel.length > 0 &&
          startsWithL "Version: ".data (selAttrOr versionSel "aria-label" "").data then
        ⟨dropPatL "Version: ".data (selAttrOr versionSel "aria-label" "").data⟩
      else ""
  , IsLatest := latestSel.length > 0 && containsSubL "Latest".data (textOfSel latestSel).data
  , Published :=
      if publishedSel.length > 0 &&
          startsWithL "Published: ".data (goTrim (textOfSel publishedSel)).data then
        goTrim ⟨dropPatL "Published: ".data (goTrim (textOfSel publishedSel)).data⟩
      else ""
  , License := licPair.1
  , LicenseURL := licPair.2
  , Imports := if importsSel.length > 0 then importsFromValue (labeledValueOf importsSel) else 0
  , ImportedBy :=
      if importedBySel.length > 0 then importedByFromValue (labeledValueOf importedBySel) else 0
  , Repository := repoSel.foldl (fun _acc l => goTrim ((attrVal l.node "href").getD "")) ""
  , Description := if overviewSel.length > 0 then goTrim (firstText overviewSel) else ""
  , Readme := readme
  , ProcessedReadme := if readmeSel.length > 0 then ConvertHTMLToMarkdown readme else ""
  , Constants := constantsLoop 0 (find d selConstantBlocks)
  , Variables := variablesLoop 0 (find d selVariableBlocks)
  , Functions := (find d selFunctionBlocks).filterMap functionFromBlock
  , Types := (find d selTypeBlocks).filterMap typeFromBlock
  }

/-! ### pkg/scraper: ScrapePackageWithRaw and ScrapePackages

The colly fetch is abstracted as an input: either the visit failed, or it
completed without the html callback firing (no document), or it handed
the callback a parsed document.  The parser never returns an error, so
the scrapeErr branch of the source is unreachable and has no
constructor. -/

/-- The distinct error exits of ScrapePackageWithRaw. -/
inductive ScrapeErr where
  | emptyImportPath
  | visitFailed
  | noDataFound (importPath : String)
deriving DecidableEq, Repr

/-- Decidable equality of outcomes, for evaluating concrete scrapes. -/
instance {ε α : Type} [DecidableEq ε] [DecidableEq α] : DecidableEq (Except ε α) :=
  fun x y =>
    match x, y with
    | .ok a, .ok b =>
      if h : a = b then isTrue (by rw [h]) else isFalse (fun hh => by cases hh; exact h rfl)
    | .error e, .error f =>
      if h : e = f then isTrue (by rw [h]) else isFalse (fun hh => by cases hh; exact h rfl)
    | .ok _, .error _ => isFalse (fun hh => by cases hh)
    | .error _, .ok _ => isFalse (fun hh => by cases hh)

/-- The mock package returned in test mode. -/
def mockPackage (importPath : String) (now : Nat) : Package :=
  { Name := "cobra"
  , Description := "A Commander providing a simple interface to create powerful modern CLI interfaces"
  , Module := "github.com/spf13/cobra"
  , Version := "v1.9.1"
  , Synopsis := "Commander library"
  , License := "Apache-2.0"
  , Repository := "https://github.com/spf13/cobra"
  , ImportPath := importPath
  , ScrapedAt := now
  , Functions := [{ Name := "Execute"
                  , Description := "Executes the root command and all subcommands."
                  , Signature := "func Execute() error"
                  , Receiver := "" , Examples := [] }]
  }

/-- The mock HTML returned in test mode. -/
def mockHTMLFor (pkg : Package) : String :=
  "<!DOCTYPE html><html><head><title>" ++ pkg.Name
    ++ " package - Go Packages</title></head><body><h1>" ++ pkg.Name ++ "</h1><p>"
    ++ pkg.Description ++ "</p><p>Mock HTML content for testing</p></body></html>"

/-- ScrapePackageWithRaw.  The fetched argument is the outcome of the
colly visit: error for a failed visit, ok none when the html callback
never fired, ok some d when it fired on document d.  In the callback the
source captures the raw inner HTML, parses the document (never an
error), and overwrites the import path of the parsed record with the
requested identifier; after the wait, a nil record is the no-data
error. -/
def scrapePackageWithRaw (testMode : Bool) (importPath : String)
    (fetched : Except Unit (Option Node)) (now : Nat) :
    Except ScrapeErr (Package × String) :=
  if goTrim importPath = "" then .error .emptyImportPath
  else if testMode then
    let mockPkg := mockPackage importPath now
    .ok (mockPkg, mockHTMLFor mockPkg)
  else
    match fetched with
    | .error _ => .error .visitFailed
    | .ok none => .error (.noDataFound importPath)
    | .ok (some d) =>
      let pkg := parsePackagePage d
      .ok ({ pkg with ImportPath := importPath, ScrapedAt := now }, innerHTML d)

/-! ScrapePackages.  The per-identifier call (ScrapePackage, that is
ScrapePackageWithRaw with the raw HTML dropped) is abstracted as an
oracle from identifier to outcome.  Both branches append each success to
the package slice and each failure, wrapped with its identifier, to the
error slice, in processing order; the sequential test-mode branch
processes the input order, the concurrent branch is modelled by an
arbitrary completion order (a permutation of the input).  The context is
modelled as never cancelled: the select in the sequential branch breaks
out of the select statement only, and the claims do not exercise
cancellation. -/

/-- A batch-level error: the empty-input failure, or the first
per-identifier failure wrapped with its identifier (the failed-to-scrape
formatting of the source). -/
inductive BatchErr (E : Type) where
  | noPaths
  | failed (path : String) (e : E)
deriving DecidableEq, Repr

/-- The shared loop body of both branches: process identifiers in the
given order, collecting packages and wrapped errors in that order. -/
def runBatch {E : Type} (scrape : String → Except E Package) :
    List String → List Package × List (BatchErr E)
  | [] => ([], [])
  | p :: ps =>
    let r := runBatch scrape ps
    match scrape p with
    | .ok pkg => (pkg :: r.1, r.2)
    | .error e => (r.1, .failed p e :: r.2)

/-- ScrapePackages: empty input is an immediate error; otherwise the
sequential branch (test mode) runs the loop over the input order and the
concurrent branch runs it over the completion order; the packages are
returned together with the first collected error, if any. -/
def scrapePackages {E : Type} (testMode : Bool) (scrape : String → Except E Package)
    (paths completionOrder : List String) : List Package × Option (BatchErr E) :=
  if paths.isEmpty then ([], some .noPaths)
  else
    let r := runBatch scrape (if testMode then paths else completionOrder)
    (r.1, r.2.head?)

/-! ### Abbreviations read off the extraction, and concrete documents

The following definitions name the per-block readings the extraction
closures perform, so that claims can quantify over blocks, and build the
concrete documents the counterexamples and witnesses evaluate. -/

/-- Build a sibling sequence from a list. -/
def nodeListOf : List Node → NodeList
  | [] => .nil
  | n :: rest => .cons n (nodeListOf rest)

/-- Build an element node from a list of children. -/
def el (tag : String) (attrs : List (String × String)) (cs : List Node) : Node :=
  .elem tag attrs (nodeListOf cs)

/-- The trimmed text of the first pre inside a declaration block: the
required minimal content of a constant or variable block. -/
def declBlockCode (l : Loc) : String :=
  match (findIn l selPre).head? with
  | none => ""
  | some pl => goTrim ⟨textContentN pl.node⟩

/-- Whether a constant declaration block provides no anchor id: its first
pre holds no constant id span. -/
def constBlockNoId (l : Loc) : Bool :=
  match (findIn l selPre).head? with
  | none => true
  | some pl => ((findIn pl selSpanConstant).head?).isNone

/-- Whether a variable declaration block provides no anchor id. -/
def varBlockNoId (l : Loc) : Bool :=
  match (findIn l selPre).head? with
  | none => true
  | some pl => ((findIn pl selSpanVariable).head?).isNone

/-- The signature a function block yields (its required minimal
content). -/
def funcBlockSignature (l : Loc) : String :=
  goTrim (firstText (findIn l selDeclPre))

/-- The header anchor id of a function or type block; empty when the
markup provides none. -/
def blockHeaderId (l : Loc) : String :=
  selAttrOr (findIn l selH4) "id" ""

/-- A field value is derived from the subtree of a block when it is empty
or is the (possibly trimmed) text content or an attribute value of a node
strictly inside that block. -/
def derivedFromSubtree (b : Node) (v : String) : Prop :=
  v = "" ∨ ∃ m, m ∈ descOf b ∧
    (v = goTrim ⟨textContentN m⟩ ∨ ∃ kv, kv ∈ m.attrsOf ∧ (v = kv.2 ∨ v = goTrim kv.2))

/-- A document whose html element is empty: it yields no package data at
all. -/
def emptyDoc : Node := el "html" [] []

/-- C2 counterexample, first sibling declaration block (a div). -/
def c2SiblingA : Node :=
  el "div" [("class", "Documentation-declaration")] [el "pre" [] [.text "const X = 1"]]

/-- C2 counterexample, second sibling declaration block, itself a p
element. -/
def c2SiblingB : Node :=
  el "p" [("class", "Documentation-declaration")] [el "pre" [] [.text "const Y = 2"]]

/-- C2 counterexample document: two sibling constant declaration blocks. -/
def c2Doc : Node :=
  el "html" [] [el "div" [("class", "Documentation-constants")] [c2SiblingA, c2SiblingB]]

/-- C3 counterexample document: a type block with a definition but no
header id, and a function block with a signature but no header id. -/
def c3Doc : Node :=
  el "html" []
    [el "div" [("class", "Documentation-types")]
      [el "div" [("class", "Documentation-type")]
        [el "h4" [] [.text "type T"],
         el "div" [("class", "Documentation-declaration")] [el "pre" [] [.text "type T int"]]]],
     el "div" [("class", "Documentation-functions")]
      [el "div" [("class", "Documentation-function")]
        [el "h4" [] [.text "func F"],
         el "div" [("class", "Documentation-declaration")] [el "pre" [] [.text "func F()"]]]]]

/-- Witness document: one constant block and one variable block without
id spans, one function block and one type block with header ids. -/
def wDoc : Node :=
  el "html" []
    [el "div" [("class", "Documentation-constants")]
      [el "div" [("class", "Documentation-declaration")] [el "pre" [] [.text "const A = 7"]]],
     el "div" [("class", "Documentation-variables")]
      [el "div" [("class", "Documentation-declaration")] [el "pre" [] [.text "var V int"]]],
     el "div" [("class", "Documentation-functions")]
      [el "div" [("class", "Documentation-function")]
        [el "h4" [("id", "F")] [.text "func F"],
         el "div" [("class", "Documentation-declaration")] [el "pre" [] [.text "func F()"]]]],
     el "div" [("class", "Documentation-types")]
      [el "div" [("class", "Documentation-type")]
        [el "h4" [("id", "T")] [.text "type T"],
         el "div" [("class", "Documentation-declaration")] [el "pre" [] [.text "type T int"]]]]]

/-- A document whose imported-by anchor carries the given aria-label. -/
def importedByDoc (label : String) : Node :=
  el "html" []
    [el "div" [("data-test-id", "UnitHeader-importedby")] [el "a" [("aria-label", label)] []]]

/-- A document whose imports anchor carries the given aria-label. -/
def importsDoc (label : String) : Node :=
  el "html" []
    [el "div" [("data-test-id", "UnitHeader-imports")] [el "a" [("aria-label", label)] []]]

/-- C10 witness document: the breadcrumb names a different import path
than the one requested. -/
def c10Doc : Node :=
  el "html" [] [el "div" [("class", "UnitHeader-breadcrumbCurrent")] [.text "other/path"]]

/-- The package C10 returns for the witness document. -/
def c10Pkg : Package :=
  { parsePackagePage c10Doc with ImportPath := "req/path", ScrapedAt := 0 }

/-- C5 oracle: fetching a fails, b succeeds. -/
def c5Scrape : String → Except String Package :=
  fun p => if p = "a" then .error "fetch failed" else .ok (mockPackage p 0)

/-! ## Theorems

General lemmas first, then one theorem per claim (with a witness when the
theorem carries hypotheses). -/

/-- Membership of the head of a list. -/
theorem mem_of_head_eq {α : Type} {l : List α} {a : α} (h : l.head? = some a) : a ∈ l := by
  cases l with
  | nil => cases h
  | cons b t => cases h; exact List.mem_cons_self _ _

/-- Membership of a successful association-list lookup. -/
theorem mem_of_lookup_eq {k v : String} :
    ∀ {ps : List (String × String)}, ps.lookup k = some v → (k, v) ∈ ps := by
  intro ps
  induction ps with
  | nil => intro h; cases h
  | cons kv rest ih =>
    intro h
    rw [List.lookup] at h
    cases hbe : (k == kv.1) with
    | true =>
      rw [hbe] at h
      cases h
      have : k = kv.1 := eq_of_beq hbe
      subst this
      exact List.mem_cons_self _ _
    | false =>
      rw [hbe] at h
      exact List.mem_cons_of_mem _ (ih h)

/-- Only the lower-angle-bracket character lowercases to it. -/
theorem eq_angle_of_toLower {c : Char} (h : c.toLower = '<') : c = '<' := by
  unfold Char.toLower at h
  simp only at h
  by_cases hub : c.toNat ≥ 65 ∧ c.toNat ≤ 90
  · exfalso
    rw [if_pos hub] at h
    have h2 := congrArg Char.toNat h
    have hvalid : (c.toNat + 32).isValidChar := by
      left
      have : c.toNat + 32 < 0xd800 := by omega
      exact_mod_cast this
    have hv : (Char.ofNat (c.toNat + 32)).toNat = c.toNat + 32 := by
      rw [Char.ofNat, dif_pos hvalid]
      simp [Char.ofNatAux, Char.toNat, UInt32.toNat, BitVec.toNat_ofNatLt]
    rw [hv] at h2
    have h3 : ('<' : Char).toNat = 60 := by decide
    omega
  · rw [if_neg hub] at h
    exact h

/-- A case-insensitive match of a pattern opening with an angle bracket
forces the text to open with one. -/
theorem startsWithCI_angle {ps s : List Char} (h : startsWithCI ('<' :: ps) s = true) :
    ∃ u, s = '<' :: u := by
  cases s with
  | nil => simp [startsWithCI] at h
  | cons c u =>
    refine ⟨u, ?_⟩
    simp only [startsWithCI, Bool.and_eq_true, decide_eq_true_eq] at h
    have hc : c.toLower = '<' := by
      have : ('<' : Char).toLower = '<' := by decide
      rw [this] at h
      exact h.1.symm
    rw [eq_angle_of_toLower hc]

/-- A pattern whose head character does not occur in the text never
occurs in it. -/
theorem containsSubL_eq_false {pat s : List Char} (c : Char)
    (hp : pat.head? = some c) (hs : c ∉ s) : containsSubL pat s = false := by
  induction s with
  | nil =>
    cases pat with
    | nil => cases hp
    | cons a t => simp [containsSubL]
  | cons a rest ih =>
    have ha : c ≠ a := fun he => hs (he ▸ List.mem_cons_self a rest)
    have hrest : c ∉ rest := fun hm => hs (List.mem_cons_of_mem a hm)
    cases pat with
    | nil => cases hp
    | cons p pt =>
      cases hp
      simp only [containsSubL, startsWithL, List.isPrefixOf, Bool.or_eq_false_iff,
        Bool.and_eq_false_iff]
      refine ⟨Or.inl ?_, ih hrest⟩
      simp [beq_eq_false_iff_ne, ha]

/-- strings.ReplaceAll leaves a text without the pattern unchanged. -/
theorem replaceAllGo_id {pat repl : List Char} :
    ∀ (fuel : Nat) (s : List Char), containsSubL pat s = false → replaceAllGo pat repl fuel s = s := by
  intro fuel
  induction fuel with
  | zero => intro s _; cases s <;> simp [replaceAllGo]
  | succ n ih =>
    intro s h
    cases s with
    | nil => simp [replaceAllGo]
    | cons c rest =>
      simp only [containsSubL, Bool.or_eq_false_iff] at h
      simp [replaceAllGo, h.1, ih rest h.2]

/-- The wrapper form of the previous lemma. -/
theorem replaceAllL_id {pat repl s : List Char} (h : containsSubL pat s = false) :
    replaceAllL pat repl s = s :=
  replaceAllGo_id s.length s h

/-- Occurrence is monotone under pattern extension, contrapositive form:
a text without some pattern is also without any extension of it. -/
theorem containsSubL_eq_false_of_extends {pat pat2 s : List Char}
    (hp : pat.isPrefixOf pat2 = true) (h : containsSubL pat s = false) :
    containsSubL pat2 s = false := by
  induction s with
  | nil =>
    simp only [containsSubL] at h ⊢
    cases pat2 with
    | nil =>
      cases pat with
      | nil => simp at h
      | cons a t => simp [List.isPrefixOf] at hp
    | cons a t => simp
  | cons c rest ih =>
    simp only [containsSubL, Bool.or_eq_false_iff] at h ⊢
    refine ⟨?_, ih h.2⟩
    cases hsw : startsWithL pat2 (c :: rest) with
    | false => rfl
    | true =>
      exfalso
      have h1 : pat <+: pat2 := List.isPrefixOf_iff_prefix.mp hp
      have h2 : pat2 <+: c :: rest := List.isPrefixOf_iff_prefix.mp hsw
      have h3 : pat <+: c :: rest := h1.trans h2
      have : startsWithL pat (c :: rest) = true := List.isPrefixOf_iff_prefix.mpr h3
      rw [this] at h
      exact absurd h.1 (by decide)

/-- The regexp rewrite driver leaves a text without angle brackets
unchanged, provided the matcher only fires on an opening angle
bracket. -/
theorem regexReplace_id {tryAt : List Char → Option (List Char × List Char)}
    (htry : ∀ t r, tryAt t = some r → ∃ u, t = '<' :: u) :
    ∀ (fuel : Nat) (s : List Char), '<' ∉ s → regexReplace tryAt fuel s = s := by
  intro fuel
  induction fuel with
  | zero => intro s _; cases s <;> simp [regexReplace]
  | succ n ih =>
    intro s hs
    cases s with
    | nil => simp [regexReplace]
    | cons c rest =>
      cases hm : tryAt (c :: rest) with
      | some r =>
        exfalso
        obtain ⟨u, hu⟩ := htry _ _ hm
        have : c = '<' := by cases hu; rfl
        exact hs (this ▸ List.mem_cons_self c rest)
      | none =>
        have : '<' ∉ rest := fun h => hs (List.mem_cons_of_mem c h)
        simp [regexReplace, hm, ih rest this]

/-- The fenced-code matcher fires only on an opening angle bracket. -/
theorem tryPreCode_angle : ∀ t r, tryPreCode t = some r → ∃ u, t = '<' :: u := by
  intro t r h
  unfold tryPreCode at h
  cases hs : startsWithCI "<pre>".data t with
  | false => rw [hs] at h; simp at h
  | true => exact startsWithCI_angle (s := t) hs

/-- The heading matcher fires only on an opening angle bracket. -/
theorem tryHeading_angle (lvl : Nat) : ∀ t r, tryHeading lvl t = some r → ∃ u, t = '<' :: u := by
  intro t r h
  unfold tryHeading at h
  simp only at h
  cases hs : startsWithCI ['<', 'h', Char.ofNat (48 + lvl)] t with
  | false => rw [hs] at h; simp at h
  | true => exact startsWithCI_angle (s := t) hs

/-- The anchor matcher fires only on an opening angle bracket. -/
theorem tryAnchor_angle : ∀ t r, tryAnchor t = some r → ∃ u, t = '<' :: u := by
  intro t r h
  unfold tryAnchor at h
  cases hs : startsWithCI "<a".data t with
  | false => rw [hs] at h; simp at h
  | true => exact startsWithCI_angle (s := t) hs

/-- The alt-src image matcher fires only on an opening angle bracket. -/
theorem tryImgAltSrc_angle : ∀ t r, tryImgAltSrc t = some r → ∃ u, t = '<' :: u := by
  intro t r h
  unfold tryImgAltSrc at h
  cases hs : startsWithCI "<img".data t with
  | false => rw [hs] at h; simp at h
  | true => exact startsWithCI_angle (s := t) hs

/-- The src-alt image matcher fires only on an opening angle bracket. -/
theorem tryImgSrcAlt_angle : ∀ t r, tryImgSrcAlt t = some r → ∃ u, t = '<' :: u := by
  intro t r h
  unfold tryImgSrcAlt at h
  cases hs : startsWithCI "<img".data t with
  | false => rw [hs] at h; simp at h
  | true => exact startsWithCI_angle (s := t) hs

/-- The src-only image matcher fires only on an opening angle bracket. -/
theorem tryImgSrcOnly_angle : ∀ t r, tryImgSrcOnly t = some r → ∃ u, t = '<' :: u := by
  intro t r h
  unfold tryImgSrcOnly at h
  cases hs : startsWithCI "<img".data t with
  | false => rw [hs] at h; simp at h
  | true => exact startsWithCI_angle (s := t) hs

/-- The inline-code matcher fires only on an opening angle bracket. -/
theorem tryInlineCode_angle : ∀ t r, tryInlineCode t = some r → ∃ u, t = '<' :: u := by
  intro t r h
  unfold tryInlineCode at h
  cases hs : startsWithCI "<code>".data t with
  | false => rw [hs] at h; simp at h
  | true => exact startsWithCI_angle (s := t) hs

/-- Index search fails for an absent character. -/
theorem idxOfChar_eq_none {c : Char} : ∀ {s : List Char}, c ∉ s → idxOfChar c s = none := by
  intro s
  induction s with
  | nil => intro _; rfl
  | cons a rest ih =>
    intro h
    have ha : a ≠ c := fun he => h (he ▸ List.mem_cons_self a rest)
    have hrest : c ∉ rest := fun hm => h (List.mem_cons_of_mem a hm)
    simp [idxOfChar, ha, ih hrest]

/-- Tag stripping leaves a text without angle brackets unchanged. -/
theorem stripAllTagsGo_id {s : List Char} (h : '<' ∉ s) :
    ∀ fuel, stripAllTagsGo fuel s = s := by
  intro fuel
  cases fuel with
  | zero => rfl
  | succ n => simp [stripAllTagsGo, idxOfChar_eq_none h]

/-- Blank-line collapsing leaves a text without triple newlines
unchanged. -/
theorem collapseBlankGo_id {s : List Char} (h : containsSubL "\n\n\n".data s = false) :
    ∀ fuel, collapseBlankGo fuel s = s := by
  intro fuel
  cases fuel with
  | zero => rfl
  | succ n => simp [collapseBlankGo, h]

/-- A fold of replacements whose patterns all open with a given character
leaves a text without that character unchanged. -/
theorem foldTable_id (ch : Char) :
    ∀ (tbl : List (String × String)) (s : List Char),
      (∀ kv ∈ tbl, kv.1.data.head? = some ch) → ch ∉ s →
      tbl.foldl (fun acc kv => replaceAllL kv.1.data kv.2.data acc) s = s := by
  intro tbl
  induction tbl with
  | nil => intro s _ _; rfl
  | cons kv rest ih =>
    intro s hheads hs
    have h1 : replaceAllL kv.1.data kv.2.data s = s :=
      replaceAllL_id (containsSubL_eq_false ch (hheads kv (List.mem_cons_self kv rest)) hs)
    simp only [List.foldl_cons, h1]
    exact ih s (fun x hx => hheads x (List.mem_cons_of_mem kv hx)) hs

/-- Entity unescaping leaves a text without ampersands unchanged. -/
theorem unescapeCommonEntitiesL_id {s : List Char} (h : '&' ∉ s) :
    unescapeCommonEntitiesL s = s :=
  foldTable_id '&' entityTable s (by decide) h

/-- C7, counterexample: the claim says Reduce returns the input unchanged
whenever the input contains no recognizable markup, but a markup-free
input with leading whitespace is trimmed. -/
theorem c7_cex_whitespace_not_preserved :
    ConvertHTMLToMarkdown " x" = "x" ∧ (" x" : String) ≠ "x" := by decide

/-- C7, amended: Reduce is total by construction, and it returns the
input unchanged provided the input contains no angle bracket, no
ampersand, no carriage return, no lone-backtick line, no run of three
newlines, and no leading or trailing whitespace; markup-free input that
violates the whitespace conditions is normalized instead. -/
theorem c7_amended_reduce_id (s : String)
    (h1 : '<' ∉ s.data) (h2 : '&' ∉ s.data) (h3 : '\r' ∉ s.data)
    (h4 : containsSubL "\n`\n".data s.data = false)
    (h5 : containsSubL "\n\n\n".data s.data = false)
    (h6 : goTrim s = s) :
    ConvertHTMLToMarkdown s = s := by
  have h6L : trimSpaceL s.data = s.data := congrArg String.data h6
  have e1 : replaceAllL "\r\n".data "\n".data s.data = s.data :=
    replaceAllL_id (containsSubL_eq_false '\r' rfl h3)
  have e2 : unescapeCommonEntitiesL s.data = s.data := unescapeCommonEntitiesL_id h2
  have e3 : regexReplace tryPreCode s.data.length s.data = s.data :=
    regexReplace_id tryPreCode_angle _ _ h1
  have e4 : [1, 2, 3, 4, 5, 6].foldl
      (fun acc lvl => regexReplace (tryHeading lvl) acc.length acc) s.data = s.data := by
    simp only [List.foldl_cons, List.foldl_nil]
    rw [regexReplace_id (tryHeading_angle 1) _ _ h1, regexReplace_id (tryHeading_angle 2) _ _ h1,
      regexReplace_id (tryHeading_angle 3) _ _ h1, regexReplace_id (tryHeading_angle 4) _ _ h1,
      regexReplace_id (tryHeading_angle 5) _ _ h1, regexReplace_id (tryHeading_angle 6) _ _ h1]
  have e5 : regexReplace tryAnchor s.data.length s.data = s.data :=
    regexReplace_id tryAnchor_angle _ _ h1
  have e6 : regexReplace tryImgAltSrc s.data.length s.data = s.data :=
    regexReplace_id tryImgAltSrc_angle _ _ h1
  have e7 : regexReplace tryImgSrcAlt s.data.length s.data = s.data :=
    regexReplace_id tryImgSrcAlt_angle _ _ h1
  have e8 : regexReplace tryImgSrcOnly s.data.length s.data = s.data :=
    regexReplace_id tryImgSrcOnly_angle _ _ h1
  have e9 : regexReplace tryInlineCode s.data.length s.data = s.data :=
    regexReplace_id tryInlineCode_angle _ _ h1
  have e10 : blockTagTable.foldl (fun acc kv => replaceAllL kv.1.data kv.2.data acc) s.data
      = s.data := foldTable_id '<' blockTagTable s.data (by decide) h1
  have e11 : stripAllTagsL s.data = s.data := stripAllTagsGo_id h1 _
  have e12 : replaceAllL "\n`\n".data "\n```\n".data s.data = s.data := replaceAllL_id h4
  have e13 : replaceAllL "\n`\n\n".data "\n```\n\n".data s.data = s.data :=
    replaceAllL_id (containsSubL_eq_false_of_extends (by decide) h4)
  have e15 : collapseBlankGo s.data.length s.data = s.data := collapseBlankGo_id h5 _
  have L : convertHTMLToMarkdownL s.data = s.data := by
    unfold convertHTMLToMarkdownL
    by_cases he : trimSpaceL s.data = []
    · rw [if_pos he]
    · rw [if_neg he]
      simp only
      rw [e1, e2, e3, e4, e5, e6, e7, e8, e9, e10]
      rw [show stripAllTagsL s.data = s.data from e11, e12, e13, e2, e15, h6L]
  show (⟨convertHTMLToMarkdownL s.data⟩ : String) = s
  rw [L]

/-- C7, witness for the amended theorem at a concrete markup-free
input. -/
theorem c7_amended_witness : ConvertHTMLToMarkdown "plain text" = "plain text" :=
  c7_amended_reduce_id "plain text" (by decide) (by decide) (by decide) (by decide)
    (by decide) (by decide)

/-- C8: Reduce on the concrete heading-and-paragraph fragment produces
exactly the expected markdown. -/
theorem c8_reduce_concrete :
    ConvertHTMLToMarkdown "<h2>Title</h2><p>Body &amp; more</p>" = "## Title\n\nBody & more" := by
  decide

/-- C1, counterexample: a parsed document that yields no usable package
data at all (extracted name and import path both empty) is still a
success, so the claimed equivalence between error and empty extraction
fails. -/
theorem c1_cex_empty_extraction_succeeds :
    scrapePackageWithRaw false "pkg" (.ok (some emptyDoc)) 0 = .ok ({ ImportPath := "pkg" }, "") ∧
    (parsePackagePage emptyDoc).Name = "" ∧ (parsePackagePage emptyDoc).ImportPath = "" := by
  decide

/-- C1, amended: the extraction call never fails on a parsed document,
however empty the extracted record; the no-data error of the
ScrapePackageWithRaw wrapper arises exactly when no document was parsed
at all (the html callback never fired). -/
theorem c1_amended_error_iff_no_document (p : String) (d : Node) (now : Nat)
    (h : goTrim p ≠ "") :
    (∃ pkg raw, scrapePackageWithRaw false p (.ok (some d)) now = .ok (pkg, raw)) ∧
    scrapePackageWithRaw false p (.ok none) now = .error (.noDataFound p) := by
  constructor
  · refine ⟨{ parsePackagePage d with ImportPath := p, ScrapedAt := now }, innerHTML d, ?_⟩
    unfold scrapePackageWithRaw
    rw [if_neg h]
    rfl
  · unfold scrapePackageWithRaw
    rw [if_neg h]
    rfl

/-- C1, witness for the amended theorem at the empty document. -/
theorem c1_amended_witness :
    (∃ pkg raw, scrapePackageWithRaw false "pkg" (.ok (some emptyDoc)) 0 = .ok (pkg, raw)) ∧
    scrapePackageWithRaw false "pkg" (.ok none) 0 = .error (.noDataFound "pkg") :=
  c1_amended_error_iff_no_document "pkg" emptyDoc 0 (by decide)

/-- C10: every successful scrape returns a package whose import path is
exactly the requested identifier; the value the extractor read from the
breadcrumb is always overwritten. -/
theorem c10_import_path_is_requested (tm : Bool) (p : String)
    (fetched : Except Unit (Option Node)) (now : Nat) (pkg : Package) (raw : String)
    (h : scrapePackageWithRaw tm p fetched now = .ok (pkg, raw)) :
    pkg.ImportPath = p := by
  unfold scrapePackageWithRaw at h
  by_cases ht : goTrim p = ""
  · rw [if_pos ht] at h
    cases h
  · rw [if_neg ht] at h
    cases tm with
    | true =>
      rw [if_pos rfl] at h
      injection h with h1
      have h2 : mockPackage p now = pkg := congrArg Prod.fst h1
      rw [← h2]
      rfl
    | false =>
      rw [if_neg (by decide)] at h
      cases fetched with
      | error e => cases h
      | ok od =>
        cases od with
        | none => cases h
        | some d =>
          injection h with h1
          have h2 : { parsePackagePage d with ImportPath := p, ScrapedAt := now } = pkg :=
            congrArg Prod.fst h1
          rw [← h2]

/-- C10, witness: the breadcrumb of the witness document names a
different path, yet the returned import path is the requested one. -/
theorem c10_witness :
    c10Pkg.ImportPath = "req/path" ∧ (parsePackagePage c10Doc).ImportPath = "other/path" :=
  ⟨c10_import_path_is_requested false "req/path" (.ok (some c10Doc)) 0 c10Pkg
      (innerHTML c10Doc) rfl,
   by decide⟩

/-- C5: with fetching a failing and b succeeding, the batch returns
exactly the record for b plus a first error referencing a, in the
sequential branch and in the concurrent branch under either completion
order, without escalating into a hard failure. -/
theorem c5_partial_failure_scenario :
    scrapePackages true c5Scrape ["a", "b"] ["a", "b"]
      = ([mockPackage "b" 0], some (.failed "a" "fetch failed")) ∧
    scrapePackages false c5Scrape ["a", "b"] ["a", "b"]
      = ([mockPackage "b" 0], some (.failed "a" "fetch failed")) ∧
    scrapePackages false c5Scrape ["a", "b"] ["b", "a"]
      = ([mockPackage "b" 0], some (.failed "a" "fetch failed")) := by
  decide

/-- C9: in the sequential test mode the batch call processes identifiers
in input order and returns exactly the successful records in input order,
with failed identifiers omitted. -/
theorem c9_sequential_input_order {E : Type} (scrape : String → Except E Package)
    (paths completionOrder : List String) :
    (scrapePackages true scrape paths completionOrder).1
      = paths.filterMap (fun p => (scrape p).toOption) := by
  have hfm : ∀ ps : List String,
      (runBatch scrape ps).1 = ps.filterMap (fun p => (scrape p).toOption) := by
    intro ps
    induction ps with
    | nil => rfl
    | cons p ps ih =>
      cases h : scrape p <;> simp [runBatch, h, ih, Except.toOption]
  unfold scrapePackages
  by_cases hp : paths.isEmpty
  · rw [if_pos hp]
    rw [List.isEmpty_iff.mp hp]
    rfl
  · rw [if_neg hp]
    simp only [if_pos rfl]
    exact hfm paths

/-- C4: for a non-empty identifier list the batch call returns exactly
one record per identifier whose scrape succeeded, that is the input
length minus the number of failures, in the sequential branch and in the
concurrent branch under any completion order. -/
theorem c4_batch_count {E : Type} (scrape : String → Except E Package) (testMode : Bool)
    (paths completionOrder : List String) (hne : paths ≠ [])
    (hperm : completionOrder.Perm paths) :
    ((scrapePackages testMode scrape paths completionOrder).1).length
      = paths.length - paths.countP (fun p => !(scrape p).isOk) := by
  have hlen : ∀ ps : List String,
      ((runBatch scrape ps).1).length = ps.countP (fun p => (scrape p).isOk) := by
    intro ps
    induction ps with
    | nil => rfl
    | cons p ps ih =>
      cases h : scrape p <;>
        simp [runBatch, h, List.countP_cons, ih, Except.isOk, Except.toBool]
  have hsub : ∀ ps : List String,
      ps.countP (fun p => (scrape p).isOk) = ps.length - ps.countP (fun p => !(scrape p).isOk) := by
    intro ps
    induction ps with
    | nil => rfl
    | cons p ps ih =>
      have hb : ps.countP (fun p => !(scrape p).isOk) ≤ ps.length :=
        List.countP_le_length _
      cases h : (scrape p).isOk with
      | true =>
        simp [List.countP_cons, h, ih]
        omega
      | false =>
        simp [List.countP_cons, h, ih]
  unfold scrapePackages
  rw [if_neg (by simpa [List.isEmpty_iff] using hne)]
  cases testMode with
  | true =>
    rw [if_pos rfl, hlen paths, hsub paths]
  | false =>
    rw [if_neg (by decide : ¬ (false = true)), hlen completionOrder, hperm.countP_eq, hsub paths]

/-- C4, witness at a concrete two-identifier batch with one failure. -/
theorem c4_batch_count_witness :
    ((scrapePackages false c5Scrape ["a", "b"] ["b", "a"]).1).length
      = (["a", "b"] : List String).length
        - (["a", "b"] : List String).countP (fun p => !(c5Scrape p).isOk) :=
  c4_batch_count c5Scrape false ["a", "b"] ["b", "a"] (by decide) (by decide)

/-- C6: the imported-by and imports fields are parsed from the labeled
aria value with commas stripped before the numeric conversion, a value
that fails to convert silently leaves the field at zero, and the two
concrete scenarios evaluate as the claim states. -/
theorem c6_numeric_fields :
    (∀ label : String, label ≠ "" →
      (parsePackagePage (importedByDoc label)).ImportedBy = importedByFromValue label) ∧
    (∀ label : String, label ≠ "" →
      (parsePackagePage (importsDoc label)).Imports = importsFromValue label) ∧
    (parsePackagePage (importedByDoc "Imported By: 177,680")).ImportedBy = 177680 ∧
    (parsePackagePage (importedByDoc "Imported By: N/A")).ImportedBy = 0 ∧
    (∀ value : String, startsWithL "Imported By: ".data value.data = true →
      goAtoi (goReplaceAll (goTrim ⟨dropPatL "Imported By: ".data value.data⟩) "," "") = none →
      importedByFromValue value = 0) := by
  refine ⟨?_, ?_, by decide, by decide, ?_⟩
  · intro label hl
    have h0 : (parsePackagePage (importedByDoc label)).ImportedBy
        = (if (find (importedByDoc label) selImportedByA).length > 0
           then importedByFromValue (labeledValueOf (find (importedByDoc label) selImportedByA))
           else 0) := rfl
    have h1 : labeledValueOf (find (importedByDoc label) selImportedByA)
        = (if label = "" then "" else label) := rfl
    rw [h0, h1, if_neg hl]
    rfl
  · intro label hl
    have h0 : (parsePackagePage (importsDoc label)).Imports
        = (if (find (importsDoc label) selImportsA).length > 0
           then importsFromValue (labeledValueOf (find (importsDoc label) selImportsA))
           else 0) := rfl
    have h1 : labeledValueOf (find (importsDoc label) selImportsA)
        = (if label = "" then "" else label) := rfl
    rw [h0, h1, if_neg hl]
    rfl
  · intro value hsw hfail
    unfold importedByFromValue
    rw [if_pos hsw]
    unfold parseLabeledCount
    rw [hfail]

/-- C6, witness applying the general statements at the concrete labels. -/
theorem c6_numeric_fields_witness :
    (parsePackagePage (importedByDoc "Imported By: 177,680")).ImportedBy
      = importedByFromValue "Imported By: 177,680" ∧
    importedByFromValue "Imported By: N/A" = 0 :=
  ⟨c6_numeric_fields.1 "Imported By: 177,680" (by decide),
   c6_numeric_fields.2.2.2.2 "Imported By: N/A" (by decide) (by decide)⟩

/-- Membership in a guarded singleton. -/
theorem eq_of_mem_ite_singleton {α : Type} {c : Prop} [Decidable c] {a x : α}
    (h : x ∈ (if c then [a] else [])) : x = a := by
  split at h
  · exact List.eq_of_mem_singleton h
  · cases h

/-- Every node a selection search returns lies among the strict
descendants of the searched sequence. -/
theorem node_mem_of_mem_locFindNL (sel : Sel) :
    ∀ (anc : List Node) (cs : NodeList) (l : Loc),
      l ∈ locFindNL sel anc cs → l.node ∈ descNL cs
  | _, .nil, _, h => absurd h (by simp [locFindNL])
  | anc, .cons (.text s) tl, l, h => by
    simp only [locFindNL, descNL] at h ⊢
    rcases List.mem_append.mp h with h1 | h2
    · rcases List.mem_append.mp h1 with ha | hb
      · rw [eq_of_mem_ite_singleton ha]
        exact List.mem_cons_self _ _
      · cases hb
    · exact List.mem_cons_of_mem _ (node_mem_of_mem_locFindNL sel anc tl l h2)
  | anc, .cons (.elem t a cs0) tl, l, h => by
    simp only [locFindNL, descNL] at h ⊢
    rcases List.mem_append.mp h with h1 | h2
    · rcases List.mem_append.mp h1 with ha | hb
      · rw [eq_of_mem_ite_singleton ha]
        exact List.mem_cons_self _ _
      · exact List.mem_cons_of_mem _
          (List.mem_append_left _
            (node_mem_of_mem_locFindNL sel (Node.elem t a cs0 :: anc) cs0 l hb))
    · exact List.mem_cons_of_mem _
        (List.mem_append_right _ (node_mem_of_mem_locFindNL sel anc tl l h2))

/-- Descent is transitive: a descendant of a descendant of a sequence is
a descendant of the sequence. -/
theorem descNL_trans :
    ∀ (cs : NodeList) (m : Node), m ∈ descNL cs → ∀ x, x ∈ descOf m → x ∈ descNL cs
  | .nil, _, h, _, _ => absurd h (by simp [descNL])
  | .cons (.text s) tl, m, h, x, hx => by
    simp only [descNL] at h ⊢
    rcases List.mem_cons.mp h with h1 | h2
    · subst h1
      simp [descOf] at hx
    · exact List.mem_cons_of_mem _ (descNL_trans tl m h2 x hx)
  | .cons (.elem t a cs0) tl, m, h, x, hx => by
    simp only [descNL] at h ⊢
    rcases List.mem_cons.mp h with h1 | h2
    · subst h1
      exact List.mem_cons_of_mem _ (List.mem_append_left _ (by simpa [descOf] using hx))
    · rcases List.mem_append.mp h2 with ha | hb
      · exact List.mem_cons_of_mem _ (List.mem_append_left _ (descNL_trans cs0 m ha x hx))
      · exact List.mem_cons_of_mem _ (List.mem_append_right _ (descNL_trans tl m hb x hx))

/-- Descent is transitive, node form. -/
theorem descOf_trans {b m x : Node} (hm : m ∈ descOf b) (hx : x ∈ descOf m) : x ∈ descOf b := by
  cases b with
  | text s => simp [descOf] at hm
  | elem t a cs => exact descNL_trans cs m hm x hx

/-- Every node a relative search returns is inside the subtree of the
searched node. -/
theorem node_mem_descOf_of_mem_findIn {l l2 : Loc} {sel : Sel}
    (h : l2 ∈ findIn l sel) : l2.node ∈ descOf l.node := by
  unfold findIn at h
  cases hn : l.node with
  | text s =>
    rw [hn] at h
    cases h
  | elem t a cs =>
    rw [hn] at h
    simpa [descOf] using node_mem_of_mem_locFindNL sel (Node.elem t a cs :: l.anc) cs l2 h

/-- The empty string is derived from any subtree. -/
theorem derived_empty (b : Node) : derivedFromSubtree b "" := Or.inl rfl

/-- The trimmed text of the first relative match is derived from the
subtree. -/
theorem derived_firstText (l : Loc) (sel : Sel) :
    derivedFromSubtree l.node (goTrim (firstText (findIn l sel))) := by
  unfold firstText
  cases hh : (findIn l sel).head? with
  | none => exact Or.inl rfl
  | some l2 =>
    exact Or.inr ⟨l2.node, node_mem_descOf_of_mem_findIn (mem_of_head_eq hh), Or.inl rfl⟩

/-- The attribute-or-empty of the first relative match is derived from
the subtree. -/
theorem derived_attrOr (l : Loc) (sel : Sel) (k : String) :
    derivedFromSubtree l.node (selAttrOr (findIn l sel) k "") := by
  unfold selAttrOr
  cases hh : (findIn l sel).head? with
  | none => exact Or.inl rfl
  | some l2 =>
    show derivedFromSubtree l.node ((attrVal l2.node k).getD "")
    cases ha : attrVal l2.node k with
    | none => exact Or.inl rfl
    | some v =>
      exact Or.inr ⟨l2.node, node_mem_descOf_of_mem_findIn (mem_of_head_eq hh),
        Or.inr ⟨(k, v), mem_of_lookup_eq ha, Or.inl rfl⟩⟩

/-- Derivation is monotone along descent. -/
theorem derived_mono {b m : Node} (hm : m ∈ descOf b) {v : String}
    (h : derivedFromSubtree m v) : derivedFromSubtree b v := by
  rcases h with h | ⟨x, hx, hform⟩
  · exact Or.inl h
  · exact Or.inr ⟨x, descOf_trans hm hx, hform⟩

/-- Every field a function block yields is derived from that block. -/
theorem functionFromBlock_derived {l : Loc} {f : Function} (h : functionFromBlock l = some f) :
    derivedFromSubtree l.node f.Name ∧ derivedFromSubtree l.node f.Signature ∧
    derivedFromSubtree l.node f.Description ∧ derivedFromSubtree l.node f.AddedIn ∧
    (f.Deprecated = "" ∨ f.Deprecated = "deprecated") ∧ f.Receiver = "" ∧ f.Examples = [] := by
  unfold functionFromBlock at h
  by_cases hsig : goTrim (firstText (findIn l selDeclPre)) ≠ ""
  · rw [if_pos hsig] at h
    cases h
    refine ⟨derived_attrOr l selH4 "id", derived_firstText l selDeclPre,
      derived_firstText l selP, ?_, ?_, rfl, rfl⟩
    · by_cases h0 : goTrim (firstText (findIn l selSinceVersionVersion)) = ""
      · show derivedFromSubtree l.node (if _ then _ else _)
        rw [if_pos h0]
        exact derived_firstText l selSinceVersion
      · show derivedFromSubtree l.node (if _ then _ else _)
        rw [if_neg h0]
        exact derived_firstText l selSinceVersionVersion
    · by_cases hd : (findIn l selDeprecatedTag).length > 0
      · right
        show (if _ then _ else _) = _
        rw [if_pos hd]
      · left
        show (if _ then _ else _) = _
        rw [if_neg hd]
  · rw [if_neg hsig] at h
    cases h

/-- Every field a method block yields is derived from that block. -/
theorem methodFromBlock_derived {ml : Loc} {m : Function} (h : methodFromBlock ml = some m) :
    derivedFromSubtree ml.node m.Name ∧ derivedFromSubtree ml.node m.Signature ∧
    derivedFromSubtree ml.node m.Description ∧ derivedFromSubtree ml.node m.AddedIn := by
  unfold methodFromBlock at h
  dsimp only [] at h
  have hName : derivedFromSubtree ml.node
      (if selAttrOr (findIn ml selH4) "id" "" = "" then goTrim (firstText (findIn ml selH4))
       else selAttrOr (findIn ml selH4) "id" "") := by
    by_cases h0 : selAttrOr (findIn ml selH4) "id" "" = ""
    · rw [if_pos h0]
      exact derived_firstText ml selH4
    · rw [if_neg h0]
      exact derived_attrOr ml selH4 "id"
  have hAdd : derivedFromSubtree ml.node
      (if goTrim (firstText (findIn ml selSinceVersionVersion)) = ""
       then goTrim (firstText (findIn ml selSinceVersion))
       else goTrim (firstText (findIn ml selSinceVersionVersion))) := by
    by_cases h0 : goTrim (firstText (findIn ml selSinceVersionVersion)) = ""
    · rw [if_pos h0]
      exact derived_firstText ml selSinceVersion
    · rw [if_neg h0]
      exact derived_firstText ml selSinceVersionVersion
  generalize hN : (if selAttrOr (findIn ml selH4) "id" "" = ""
      then goTrim (firstText (findIn ml selH4))
      else selAttrOr (findIn ml selH4) "id" "") = nm at h hName
  generalize hA : (if goTrim (firstText (findIn ml selSinceVersionVersion)) = ""
      then goTrim (firstText (findIn ml selSinceVersion))
      else goTrim (firstText (findIn ml selSinceVersionVersion))) = ad at h hAdd
  generalize hD : (if (findIn ml selDeprecatedTag).length > 0
      then "deprecated" else "") = dep at h
  split at h
  · cases h
    exact ⟨hName, derived_firstText ml selDeclPre, derived_firstText ml selP, hAdd⟩
  · cases h

/-- Every field a type block yields, methods included, is derived from
that block. -/
theorem typeFromBlock_derived {l : Loc} {t : TypeDecl} (h : typeFromBlock l = some t) :
    derivedFromSubtree l.node t.Name ∧ derivedFromSubtree l.node t.Definition ∧
    derivedFromSubtree l.node t.Description ∧ derivedFromSubtree l.node t.AddedIn ∧
    ∀ m ∈ t.Methods,
      derivedFromSubtree l.node m.Name ∧ derivedFromSubtree l.node m.Signature ∧
      derivedFromSubtree l.node m.Description ∧ derivedFromSubtree l.node m.AddedIn := by
  unfold typeFromBlock at h
  dsimp only [] at h
  have hAdd : derivedFromSubtree l.node
      (if goTrim (firstText (findIn l selSinceVersionVersion)) = ""
       then goTrim (firstText (findIn l selSinceVersion))
       else goTrim (firstText (findIn l selSinceVersionVersion))) := by
    by_cases h0 : goTrim (firstText (findIn l selSinceVersionVersion)) = ""
    · rw [if_pos h0]
      exact derived_firstText l selSinceVersion
    · rw [if_neg h0]
      exact derived_firstText l selSinceVersionVersion
  generalize hA : (if goTrim (firstText (findIn l selSinceVersionVersion)) = ""
      then goTrim (firstText (findIn l selSinceVersion))
      else goTrim (firstText (findIn l selSinceVersionVersion))) = ad at h hAdd
  generalize hD : (if (findIn l selDeprecatedTag).length > 0
      then "deprecated" else "") = dep at h
  split at h
  · cases h
    refine ⟨derived_attrOr l selH4 "id", derived_firstText l selDeclPre,
      derived_firstText l selP, hAdd, ?_⟩
    intro m hm
    obtain ⟨ml, hml, hme⟩ := List.mem_filterMap.mp hm
    have hdesc := node_mem_descOf_of_mem_findIn hml
    obtain ⟨d1, d2, d3, d4⟩ := methodFromBlock_derived hme
    exact ⟨derived_mono hdesc d1, derived_mono hdesc d2,
      derived_mono hdesc d3, derived_mono hdesc d4⟩
  · cases h

/-- AttrOr on an empty selection yields the default. -/
theorem selAttrOr_of_head_none {ls : List Loc} {k dflt : String} (h : ls.head? = none) :
    selAttrOr ls k dflt = dflt := by
  unfold selAttrOr
  rw [h]

/-- AttrOr on a selection reads the first match. -/
theorem selAttrOr_of_head_some {ls : List Loc} {l : Loc} {k dflt : String}
    (h : ls.head? = some l) : selAttrOr ls k dflt = (attrVal l.node k).getD dflt := by
  unfold selAttrOr
  rw [h]

/-- The value a constant block yields is derived from the block, and its
name is derived from the block or positional. -/
theorem constFromBlock_derived {i : Nat} {l : Loc} {c : Constant}
    (h : constFromBlock i l = some c) :
    derivedFromSubtree l.node c.Value ∧
    (derivedFromSubtree l.node c.Name ∨ ∃ k : Nat, c.Name = goTrim ("const-block-" ++ toString k)) := by
  unfold constFromBlock at h
  cases hh : (findIn l selPre).head? with
  | none =>
    rw [hh] at h
    dsimp only [] at h
    cases h
  | some pl =>
    rw [hh] at h
    dsimp only [] at h
    have hpl : pl.node ∈ descOf l.node := node_mem_descOf_of_mem_findIn (mem_of_head_eq hh)
    by_cases hc : goTrim ⟨textContentN pl.node⟩ = ""
    · rw [if_pos hc] at h
      cases h
    · rw [if_neg hc] at h
      cases h
      refine ⟨Or.inr ⟨pl.node, hpl, Or.inl rfl⟩, ?_⟩
      cases hs : (findIn pl selSpanConstant).head? with
      | none =>
        right
        refine ⟨i + 1, ?_⟩
        show goTrim (selAttrOr (findIn pl selSpanConstant) "id" ("const-block-" ++ toString (i + 1)))
            = goTrim ("const-block-" ++ toString (i + 1))
        rw [selAttrOr_of_head_none hs]
      | some sl =>
        have hsl : sl.node ∈ descOf l.node :=
          descOf_trans hpl (node_mem_descOf_of_mem_findIn (mem_of_head_eq hs))
        cases ha : attrVal sl.node "id" with
        | none =>
          right
          refine ⟨i + 1, ?_⟩
          show goTrim (selAttrOr (findIn pl selSpanConstant) "id" ("const-block-" ++ toString (i + 1)))
              = goTrim ("const-block-" ++ toString (i + 1))
          rw [selAttrOr_of_head_some hs, ha]
          rfl
        | some v =>
          left
          refine Or.inr ⟨sl.node, hsl, Or.inr ⟨("id", v), mem_of_lookup_eq ha, Or.inr ?_⟩⟩
          show goTrim (selAttrOr (findIn pl selSpanConstant) "id" ("const-block-" ++ toString (i + 1)))
              = goTrim ("id", v).2
          rw [selAttrOr_of_head_some hs, ha]
          rfl

/-- The value a variable block yields is derived from the block, and its
name is derived from the block or positional. -/
theorem varFromBlock_derived {i : Nat} {l : Loc} {v : Variable}
    (h : varFromBlock i l = some v) :
    derivedFromSubtree l.node v.Typ ∧
    (derivedFromSubtree l.node v.Name ∨ ∃ k : Nat, v.Name = goTrim ("var-block-" ++ toString k)) := by
  unfold varFromBlock at h
  cases hh : (findIn l selPre).head? with
  | none =>
    rw [hh] at h
    dsimp only [] at h
    cases h
  | some pl =>
    rw [hh] at h
    dsimp only [] at h
    have hpl : pl.node ∈ descOf l.node := node_mem_descOf_of_mem_findIn (mem_of_head_eq hh)
    by_cases hc : goTrim ⟨textContentN pl.node⟩ = ""
    · rw [if_pos hc] at h
      cases h
    · rw [if_neg hc] at h
      cases h
      refine ⟨Or.inr ⟨pl.node, hpl, Or.inl rfl⟩, ?_⟩
      cases hs : (findIn pl selSpanVariable).head? with
      | none =>
        right
        refine ⟨i + 1, ?_⟩
        show goTrim (selAttrOr (findIn pl selSpanVariable) "id" ("var-block-" ++ toString (i + 1)))
            = goTrim ("var-block-" ++ toString (i + 1))
        rw [selAttrOr_of_head_none hs]
      | some sl =>
        have hsl : sl.node ∈ descOf l.node :=
          descOf_trans hpl (node_mem_descOf_of_mem_findIn (mem_of_head_eq hs))
        cases ha : attrVal sl.node "id" with
        | none =>
          right
          refine ⟨i + 1, ?_⟩
          show goTrim (selAttrOr (findIn pl selSpanVariable) "id" ("var-block-" ++ toString (i + 1)))
              = goTrim ("var-block-" ++ toString (i + 1))
          rw [selAttrOr_of_head_some hs, ha]
          rfl
        | some v0 =>
          left
          refine Or.inr ⟨sl.node, hsl, Or.inr ⟨("id", v0), mem_of_lookup_eq ha, Or.inr ?_⟩⟩
          show goTrim (selAttrOr (findIn pl selSpanVariable) "id" ("var-block-" ++ toString (i + 1)))
              = goTrim ("id", v0).2
          rw [selAttrOr_of_head_some hs, ha]
          rfl

/-- Every constant the loop emits comes from one of the blocks. -/
theorem mem_blocks_of_mem_constantsLoop :
    ∀ (ls : List Loc) (i0 : Nat) (c : Constant),
      c ∈ constantsLoop i0 ls → ∃ l ∈ ls, ∃ i, constFromBlock i l = some c := by
  intro ls
  induction ls with
  | nil => intro i0 c h; cases h
  | cons l ls ih =>
    intro i0 c h
    unfold constantsLoop at h
    cases hb : constFromBlock i0 l with
    | some c0 =>
      rw [hb] at h
      rcases List.mem_cons.mp h with h1 | h2
      · exact ⟨l, List.mem_cons_self _ _, i0, h1 ▸ hb⟩
      · obtain ⟨l2, hl2, i, hi⟩ := ih (i0 + 1) c h2
        exact ⟨l2, List.mem_cons_of_mem _ hl2, i, hi⟩
    | none =>
      rw [hb] at h
      obtain ⟨l2, hl2, i, hi⟩ := ih (i0 + 1) c h
      exact ⟨l2, List.mem_cons_of_mem _ hl2, i, hi⟩

/-- Every variable the loop emits comes from one of the blocks. -/
theorem mem_blocks_of_mem_variablesLoop :
    ∀ (ls : List Loc) (i0 : Nat) (v : Variable),
      v ∈ variablesLoop i0 ls → ∃ l ∈ ls, ∃ i, varFromBlock i l = some v := by
  intro ls
  induction ls with
  | nil => intro i0 v h; cases h
  | cons l ls ih =>
    intro i0 v h
    unfold variablesLoop at h
    cases hb : varFromBlock i0 l with
    | some v0 =>
      rw [hb] at h
      rcases List.mem_cons.mp h with h1 | h2
      · exact ⟨l, List.mem_cons_self _ _, i0, h1 ▸ hb⟩
      · obtain ⟨l2, hl2, i, hi⟩ := ih (i0 + 1) v h2
        exact ⟨l2, List.mem_cons_of_mem _ hl2, i, hi⟩
    | none =>
      rw [hb] at h
      obtain ⟨l2, hl2, i, hi⟩ := ih (i0 + 1) v h
      exact ⟨l2, List.mem_cons_of_mem _ hl2, i, hi⟩

/-- A block whose extraction succeeds contributes to the constants loop,
at any starting index. -/
theorem mem_constantsLoop_of_blockIdx :
    ∀ (ls : List Loc) (i0 j : Nat) (hj : j < ls.length) (c : Constant),
      constFromBlock (i0 + j) (ls.get ⟨j, hj⟩) = some c → c ∈ constantsLoop i0 ls
  | [], _, j, hj, _, _ => absurd hj (by simp)
  | l :: ls, i0, 0, hj, c, h => by
    have h0 : constFromBlock i0 l = some c := h
    unfold constantsLoop
    rw [h0]
    exact List.mem_cons_self _ _
  | l :: ls, i0, j + 1, hj, c, h => by
    have hj2 : j < ls.length := Nat.lt_of_succ_lt_succ hj
    have h2 : constFromBlock (i0 + 1 + j) (ls.get ⟨j, hj2⟩) = some c := by
      have he : i0 + (j + 1) = i0 + 1 + j := by omega
      rw [← he]
      exact h
    have hmem := mem_constantsLoop_of_blockIdx ls (i0 + 1) j hj2 c h2
    unfold constantsLoop
    cases hb : constFromBlock i0 l with
    | some c0 => exact List.mem_cons_of_mem _ hmem
    | none => exact hmem

/-- A block whose extraction succeeds contributes to the variables loop,
at any starting index. -/
theorem mem_variablesLoop_of_blockIdx :
    ∀ (ls : List Loc) (i0 j : Nat) (hj : j < ls.length) (v : Variable),
      varFromBlock (i0 + j) (ls.get ⟨j, hj⟩) = some v → v ∈ variablesLoop i0 ls
  | [], _, j, hj, _, _ => absurd hj (by simp)
  | l :: ls, i0, 0, hj, v, h => by
    have h0 : varFromBlock i0 l = some v := h
    unfold variablesLoop
    rw [h0]
    exact List.mem_cons_self _ _
  | l :: ls, i0, j + 1, hj, v, h => by
    have hj2 : j < ls.length := Nat.lt_of_succ_lt_succ hj
    have h2 : varFromBlock (i0 + 1 + j) (ls.get ⟨j, hj2⟩) = some v := by
      have he : i0 + (j + 1) = i0 + 1 + j := by omega
      rw [← he]
      exact h
    have hmem := mem_variablesLoop_of_blockIdx ls (i0 + 1) j hj2 v h2
    unfold variablesLoop
    cases hb : varFromBlock i0 l with
    | some v0 => exact List.mem_cons_of_mem _ hmem
    | none => exact hmem

/-- C2, counterexample: two sibling constant declaration blocks where the
second is itself a paragraph element; the description extracted for the
first block is the text of the second block, text that appears only
inside the subtree of that sibling. -/
theorem c2_cex_sibling_subtree_leak :
    (parsePackagePage c2Doc).Constants =
      [{ Name := "const-block-1", Value := "const X = 1", Description := "const Y = 2" },
       { Name := "const-block-2", Value := "const Y = 2", Description := "" }] ∧
    containsSubL "const Y = 2".data (textContentN c2SiblingA) = false ∧
    containsSubL "const Y = 2".data (textContentN c2SiblingB) = true := by
  decide

/-- C2, amended: containment holds for every field except the constant
and variable descriptions: every extracted function, type and method
field is empty, a deprecation constant, or the (trimmed) text or an
attribute of a node inside the subtree of its own block, and likewise
the value and name of constants and variables (names may instead be the
synthesized positional fallback); constant and variable descriptions are
read from the following siblings of the block, outside its subtree, and
can capture text of a sibling declaration block. -/
theorem c2_amended_containment (d : Node) :
    (∀ f ∈ (parsePackagePage d).Functions, ∃ l ∈ find d selFunctionBlocks,
      derivedFromSubtree l.node f.Name ∧ derivedFromSubtree l.node f.Signature ∧
      derivedFromSubtree l.node f.Description ∧ derivedFromSubtree l.node f.AddedIn ∧
      (f.Deprecated = "" ∨ f.Deprecated = "deprecated") ∧ f.Receiver = "" ∧ f.Examples = []) ∧
    (∀ t ∈ (parsePackagePage d).Types, ∃ l ∈ find d selTypeBlocks,
      derivedFromSubtree l.node t.Name ∧ derivedFromSubtree l.node t.Definition ∧
      derivedFromSubtree l.node t.Description ∧ derivedFromSubtree l.node t.AddedIn ∧
      ∀ m ∈ t.Methods,
        derivedFromSubtree l.node m.Name ∧ derivedFromSubtree l.node m.Signature ∧
        derivedFromSubtree l.node m.Description ∧ derivedFromSubtree l.node m.AddedIn) ∧
    (∀ c ∈ (parsePackagePage d).Constants, ∃ l ∈ find d selConstantBlocks,
      derivedFromSubtree l.node c.Value ∧
      (derivedFromSubtree l.node c.Name ∨
        ∃ k : Nat, c.Name = goTrim ("const-block-" ++ toString k))) ∧
    (∀ v ∈ (parsePackagePage d).Variables, ∃ l ∈ find d selVariableBlocks,
      derivedFromSubtree l.node v.Typ ∧
      (derivedFromSubtree l.node v.Name ∨
        ∃ k : Nat, v.Name = goTrim ("var-block-" ++ toString k))) := by
  refine ⟨?_, ?_, ?_, ?_⟩
  · intro f hf
    have hF : (parsePackagePage d).Functions
        = (find d selFunctionBlocks).filterMap functionFromBlock := rfl
    rw [hF] at hf
    obtain ⟨l, hl, he⟩ := List.mem_filterMap.mp hf
    exact ⟨l, hl, functionFromBlock_derived he⟩
  · intro t ht
    have hT : (parsePackagePage d).Types
        = (find d selTypeBlocks).filterMap typeFromBlock := rfl
    rw [hT] at ht
    obtain ⟨l, hl, he⟩ := List.mem_filterMap.mp ht
    exact ⟨l, hl, typeFromBlock_derived he⟩
  · intro c hc
    have hC : (parsePackagePage d).Constants
        = constantsLoop 0 (find d selConstantBlocks) := rfl
    rw [hC] at hc
    obtain ⟨l, hl, i, hi⟩ := mem_blocks_of_mem_constantsLoop _ 0 c hc
    exact ⟨l, hl, constFromBlock_derived hi⟩
  · intro v hv
    have hV : (parsePackagePage d).Variables
        = variablesLoop 0 (find d selVariableBlocks) := rfl
    rw [hV] at hv
    obtain ⟨l, hl, i, hi⟩ := mem_blocks_of_mem_variablesLoop _ 0 v hv
    exact ⟨l, hl, varFromBlock_derived hi⟩

/-- C2, witness for the amended containment at the first constant of the
counterexample document. -/
theorem c2_amended_witness :
    ∃ l ∈ find c2Doc selConstantBlocks,
      derivedFromSubtree l.node
        ((⟨"const-block-1", "", "const X = 1", "const Y = 2"⟩ : Constant).Value) ∧
      (derivedFromSubtree l.node
          ((⟨"const-block-1", "", "const X = 1", "const Y = 2"⟩ : Constant).Name) ∨
        ∃ k : Nat, (⟨"const-block-1", "", "const X = 1", "const Y = 2"⟩ : Constant).Name
          = goTrim ("const-block-" ++ toString k)) :=
  (c2_amended_containment c2Doc).2.2.1
    ⟨"const-block-1", "", "const X = 1", "const Y = 2"⟩ (by decide)

/-- C3, counterexample: a type block with a definition but no header id
is dropped entirely, and a function block with a signature but no header
id is appended with an empty name, not a synthesized positional one. -/
theorem c3_cex_type_dropped_function_unnamed :
    (parsePackagePage c3Doc).Types = [] ∧
    (parsePackagePage c3Doc).Functions = [{ Name := "", Signature := "func F()" }] := by
  decide

/-- C3, amended: constant and variable blocks with non-empty declaration
text are always appended, with the positional fallback name when the pre
holds no id span; function blocks with a non-empty signature are always
appended using the header id as name, possibly empty; type blocks are
appended only with a non-empty header id (every extracted type has a
non-empty name), so id-less type blocks are dropped. -/
theorem c3_amended_fallback_names (d : Node) :
    (∀ j, ∀ hj : j < (find d selConstantBlocks).length,
      declBlockCode ((find d selConstantBlocks).get ⟨j, hj⟩) ≠ "" →
      ∃ c ∈ (parsePackagePage d).Constants,
        c.Value = declBlockCode ((find d selConstantBlocks).get ⟨j, hj⟩) ∧
        (constBlockNoId ((find d selConstantBlocks).get ⟨j, hj⟩) = true →
          c.Name = goTrim ("const-block-" ++ toString (j + 1)))) ∧
    (∀ j, ∀ hj : j < (find d selVariableBlocks).length,
      declBlockCode ((find d selVariableBlocks).get ⟨j, hj⟩) ≠ "" →
      ∃ v ∈ (parsePackagePage d).Variables,
        v.Typ = declBlockCode ((find d selVariableBlocks).get ⟨j, hj⟩) ∧
        (varBlockNoId ((find d selVariableBlocks).get ⟨j, hj⟩) = true →
          v.Name = goTrim ("var-block-" ++ toString (j + 1)))) ∧
    (∀ l ∈ find d selFunctionBlocks, funcBlockSignature l ≠ "" →
      ∃ f ∈ (parsePackagePage d).Functions,
        f.Signature = funcBlockSignature l ∧ f.Name = blockHeaderId l) ∧
    (∀ t ∈ (parsePackagePage d).Types, t.Name ≠ "") := by
  refine ⟨?_, ?_, ?_, ?_⟩
  · intro j hj hcode
    cases hpre : (findIn ((find d selConstantBlocks).get ⟨j, hj⟩) selPre).head? with
    | none =>
      exact absurd (by unfold declBlockCode; rw [hpre]) hcode
    | some pl =>
      have hcode2 : declBlockCode ((find d selConstantBlocks).get ⟨j, hj⟩)
          = goTrim ⟨textContentN pl.node⟩ := by
        unfold declBlockCode
        rw [hpre]
      have hne : ¬ goTrim ⟨textContentN pl.node⟩ = "" := by
        rw [← hcode2]
        exact hcode
      have hcb : constFromBlock j ((find d selConstantBlocks).get ⟨j, hj⟩) = some
          { Name := goTrim (selAttrOr (findIn pl selSpanConstant) "id"
              ("const-block-" ++ toString (j + 1)))
          , Typ := ""
          , Value := goTrim ⟨textContentN pl.node⟩
          , Description := goTrim (nextAllFilteredFirstText
              ((find d selConstantBlocks).get ⟨j, hj⟩) selP) } := by
        unfold constFromBlock
        rw [hpre]
        dsimp only []
        rw [if_neg hne]
      have hmem := mem_constantsLoop_of_blockIdx (find d selConstantBlocks) 0 j hj _
        (by rw [Nat.zero_add]; exact hcb)
      refine ⟨{ Name := goTrim (selAttrOr (findIn pl selSpanConstant) "id" ("const-block-" ++ toString (j + 1))), Typ := "", Value := goTrim ⟨textContentN pl.node⟩, Description := goTrim (nextAllFilteredFirstText ((find d selConstantBlocks).get ⟨j, hj⟩) selP) }, ?_, ?_, ?_⟩
      · show _ ∈ (parsePackagePage d).Constants
        have hC : (parsePackagePage d).Constants
            = constantsLoop 0 (find d selConstantBlocks) := rfl
        rw [hC]
        exact hmem
      · rw [hcode2]
      · intro hnoid
        have hs : (findIn pl selSpanConstant).head? = none := by
          unfold constBlockNoId at hnoid
          rw [hpre] at hnoid
          exact Option.isNone_iff_eq_none.mp hnoid
        show goTrim (selAttrOr (findIn pl selSpanConstant) "id"
            ("const-block-" ++ toString (j + 1))) = _
        rw [selAttrOr_of_head_none hs]
  · intro j hj hcode
    cases hpre : (findIn ((find d selVariableBlocks).get ⟨j, hj⟩) selPre).head? with
    | none =>
      exact absurd (by unfold declBlockCode; rw [hpre]) hcode
    | some pl =>
      have hcode2 : declBlockCode ((find d selVariableBlocks).get ⟨j, hj⟩)
          = goTrim ⟨textContentN pl.node⟩ := by
        unfold declBlockCode
        rw [hpre]
      have hne : ¬ goTrim ⟨textContentN pl.node⟩ = "" := by
        rw [← hcode2]
        exact hcode
      have hcb : varFromBlock j ((find d selVariableBlocks).get ⟨j, hj⟩) = some
          { Name := goTrim (selAttrOr (findIn pl selSpanVariable) "id"
              ("var-block-" ++ toString (j + 1)))
          , Typ := goTrim ⟨textContentN pl.node⟩
          , Description := goTrim (nextAllFilteredFirstText
              ((find d selVariableBlocks).get ⟨j, hj⟩) selP) } := by
        unfold varFromBlock
        rw [hpre]
        dsimp only []
        rw [if_neg hne]
      have hmem := mem_variablesLoop_of_blockIdx (find d selVariableBlocks) 0 j hj _
        (by rw [Nat.zero_add]; exact hcb)
      refine ⟨{ Name := goTrim (selAttrOr (findIn pl selSpanVariable) "id" ("var-block-" ++ toString (j + 1))), Typ := goTrim ⟨textContentN pl.node⟩, Description := goTrim (nextAllFilteredFirstText ((find d selVariableBlocks).get ⟨j, hj⟩) selP) }, ?_, ?_, ?_⟩
      · show _ ∈ (parsePackagePage d).Variables
        have hV : (parsePackagePage d).Variables
            = variablesLoop 0 (find d selVariableBlocks) := rfl
        rw [hV]
        exact hmem
      · rw [hcode2]
      · intro hnoid
        have hs : (findIn pl selSpanVariable).head? = none := by
          unfold varBlockNoId at hnoid
          rw [hpre] at hnoid
          exact Option.isNone_iff_eq_none.mp hnoid
        show goTrim (selAttrOr (findIn pl selSpanVariable) "id"
            ("var-block-" ++ toString (j + 1))) = _
        rw [selAttrOr_of_head_none hs]
  · intro l hl hsig
    have hfb : functionFromBlock l = some
        { Name := blockHeaderId l
        , Signature := funcBlockSignature l
        , Description := goTrim (firstText (findIn l selP))
        , Deprecated := if (findIn l selDeprecatedTag).length > 0 then "deprecated" else ""
        , AddedIn :=
            if goTrim (firstText (findIn l selSinceVersionVersion)) = ""
            then goTrim (firstText (findIn l selSinceVersion))
            else goTrim (firstText (findIn l selSinceVersionVersion)) } := by
      unfold functionFromBlock
      dsimp only []
      rw [if_pos (show goTrim (firstText (findIn l selDeclPre)) ≠ "" from hsig)]
      rfl
    refine ⟨{ Name := blockHeaderId l, Signature := funcBlockSignature l, Description := goTrim (firstText (findIn l selP)), Deprecated := if (findIn l selDeprecatedTag).length > 0 then "deprecated" else "", AddedIn := if goTrim (firstText (findIn l selSinceVersionVersion)) = "" then goTrim (firstText (findIn l selSinceVersion)) else goTrim (firstText (findIn l selSinceVersionVersion)) }, ?_, rfl, rfl⟩
    show _ ∈ (parsePackagePage d).Functions
    have hF : (parsePackagePage d).Functions
        = (find d selFunctionBlocks).filterMap functionFromBlock := rfl
    rw [hF]
    exact List.mem_filterMap.mpr ⟨l, hl, hfb⟩
  · intro t ht
    have hT : (parsePackagePage d).Types
        = (find d selTypeBlocks).filterMap typeFromBlock := rfl
    rw [hT] at ht
    obtain ⟨l, hl, he⟩ := List.mem_filterMap.mp ht
    unfold typeFromBlock at he
    dsimp only [] at he
    split at he
    · next hcond =>
      cases he
      simp only [Bool.and_eq_true, decide_eq_true_eq] at hcond
      exact hcond.1
    · cases he

/-- C3, witness for the amended theorem at the witness document: its
constant block has no id span and is appended under the positional
fallback name. -/
theorem c3_amended_witness :
    ∃ c ∈ (parsePackagePage wDoc).Constants,
      c.Value = declBlockCode ((find wDoc selConstantBlocks).get ⟨0, by decide⟩) ∧
      (constBlockNoId ((find wDoc selConstantBlocks).get ⟨0, by decide⟩) = true →
        c.Name = goTrim ("const-block-" ++ toString (0 + 1))) :=
  (c3_amended_fallback_names wDoc).1 0 (by decide) (by decide)

end Docinator
